import Mathlib

/-!
Verification development for the QR rendering core of the `qrcode` repository.

The TypeScript source is shallowly embedded here:
* JavaScript numbers are modelled as exact rationals (`ℚ`); the spec's
  "within floating rounding" equalities become exact rational equalities.
* JavaScript strings are modelled as `List Char`; `String.trim` and
  `split(/\s+/)` are embedded as character-list functions.
* The external QR encoder (`QRCode.create`) and the canvas text-measurement
  facility (`ctx.measureText`) are external collaborators; they are passed
  in as explicit function parameters.
* Fallible code (`buildMatrix`, which throws) returns `Except String _`.
* Canvas / SVG drawing calls are embedded as emitted-shape lists.  Pixel
  snapping (`getAlignedRect`) and colour strings are presentational; the
  derived-layout objects compared below record shape kinds, base (pre-snap)
  coordinates and fill roles, which is the granularity the spec's layout
  claims are stated at.
-/

namespace QrSpec

/-- JavaScript `Math.round` on a rational (round half up, as JS does for
all values that matter here). -/
def jsRound (q : ℚ) : ℤ := ⌊q + 1/2⌋

/-- The five module styles of `QrStyle` in the source. -/
inductive QrStyle
  | classic
  | rounded
  | dots
  | pills
  | outline
deriving DecidableEq, Repr

/-- Label size classes. -/
inductive LabelSize
  | sm
  | md
  | lg
deriving DecidableEq, Repr

/-- Label font weights. -/
inductive LabelWeight
  | regular
  | bold
deriving DecidableEq, Repr

/-- Label alignment options. -/
inductive LabelAlign
  | left
  | center
  | right
deriving DecidableEq, Repr

/-- `const QUIET_ZONE_MODULES = 4`. -/
def QUIET_ZONE_MODULES : ℕ := 4

/-- `const STYLE_SCALE` table from the source. -/
def STYLE_SCALE : QrStyle → ℚ
  | .classic => 1
  | .rounded => 0.78
  | .dots => 0.58
  | .pills => 0.64
  | .outline => 0.6

/-- `getStyleScale` from the source (the table is total, so the `?? 1`
default never fires). -/
def getStyleScale (style : QrStyle) : ℚ := STYLE_SCALE style

/-- `const LABEL_FONT_SCALE` table from the source (resolution-proportional
label sizing used by the render module). -/
def LABEL_FONT_SCALE : LabelSize → ℚ
  | .sm => 0.045
  | .md => 0.06
  | .lg => 0.08

/-- Logo options as consumed by the renderer.  `image` records whether a
decoded raster handle is present, `dataUrl` whether an embeddable data URL
is present. -/
structure LogoOptions where
  image : Bool
  dataUrl : Bool
  sizePercent : ℚ
  safeZone : Bool
deriving DecidableEq, Repr

/-- Label options as consumed by the renderer. -/
structure LabelOptions where
  text : List Char
  size : LabelSize
  weight : LabelWeight
  align : LabelAlign
  invert : Bool
deriving DecidableEq, Repr

/-- The `QrRenderOptions` aggregate (the spec's RenderRequest).  Colour
strings are carried opaquely. -/
structure QrRenderOptions where
  text : List Char
  size : ℚ
  style : QrStyle
  foreground : String
  background : String
  transparentBackground : Bool
  logo : Option LogoOptions
  label : Option LabelOptions
  pixelRatio : Option ℚ
deriving DecidableEq, Repr

/-- The boolean module matrix. -/
structure ModuleMatrix where
  size : ℕ
  rows : List (List Bool)
deriving DecidableEq, Repr

/-- Result of `computeModuleSize`. -/
structure Geometry where
  moduleSize : ℚ
  offset : ℚ
deriving DecidableEq, Repr

/-- `computeModuleSize(moduleCount, size)` from the source. -/
def computeModuleSize (moduleCount : ℕ) (size : ℚ) : Geometry :=
  let totalModules : ℚ := (moduleCount : ℚ) + (QUIET_ZONE_MODULES : ℚ) * 2
  let moduleSize := size / totalModules
  { moduleSize := moduleSize, offset := moduleSize * (QUIET_ZONE_MODULES : ℚ) }

/-- The derived `LogoClip` record. -/
structure LogoClip where
  x : ℚ
  y : ℚ
  size : ℚ
  contentSize : ℚ
  padding : ℚ
deriving DecidableEq, Repr

/-- `computeLogoClip(matrixSize, moduleSize, options)` from the source. -/
def computeLogoClip (matrixSize : ℕ) (moduleSize : ℚ)
    (options : QrRenderOptions) : Option LogoClip :=
  match options.logo with
  | none => none
  | some logo =>
    if (logo.image || logo.dataUrl) && decide (0 < logo.sizePercent) then
      let qrPixelArea := (matrixSize : ℚ) * moduleSize
      let contentSize := qrPixelArea * logo.sizePercent / 100
      let padding : ℚ := if logo.safeZone then max (moduleSize * 1.5) 8 else 0
      let size := contentSize + padding * 2
      let start := options.size / 2 - size / 2
      some { x := start, y := start, size := size,
             contentSize := contentSize, padding := padding }
    else none

/-- `moduleWithinClip` from the source (rectangle-overlap test against the
padded clip square). -/
def moduleWithinClip (moduleX moduleY width height : ℚ) (clip : LogoClip) : Bool :=
  let right := moduleX + width
  let bottom := moduleY + height
  decide (moduleX < clip.x + clip.size) && decide (clip.x < right) &&
    decide (moduleY < clip.y + clip.size) && decide (clip.y < bottom)

/-- `isFinderModule(x, y, size)` from the source.  In JS, `x >= size - 7`
with a possibly negative right-hand side is matched exactly by truncated
natural subtraction, because `x ≥ 0` always. -/
def isFinderModule (x y size : ℕ) : Bool :=
  let inTop := decide (y < 7)
  let inBottom := decide (size - 7 ≤ y)
  let inLeft := decide (x < 7)
  let inRight := decide (size - 7 ≤ x)
  (inTop && inLeft) || (inTop && inRight) || (inBottom && inLeft)

/-- `getFinderRadius(style, size)` from the source. -/
def getFinderRadius (style : QrStyle) (size : ℚ) : ℚ :=
  match style with
  | .dots => size / 2
  | .rounded => size * 0.2
  | .pills => size * 0.25
  | _ => 0

/-- JavaScript `String.trim`, embedded on character lists (whitespace is
modelled by `Char.isWhitespace`). -/
def trimChars (s : List Char) : List Char :=
  ((s.dropWhile Char.isWhitespace).reverse.dropWhile Char.isWhitespace).reverse

/-- Dropping a prefix never lengthens a list (termination helper). -/
theorem length_dropWhile_le (p : Char → Bool) (l : List Char) :
    (l.dropWhile p).length ≤ l.length :=
  (List.dropWhile_sublist p).length_le

/-- Accumulator loop for `splitWs`: `acc` holds the reversed characters of
the word being read. -/
def splitWsAux : List Char → List Char → List (List Char)
  | [], acc => if acc.isEmpty then [] else [acc.reverse]
  | c :: rest, acc =>
    if c.isWhitespace then
      if acc.isEmpty then splitWsAux rest []
      else acc.reverse :: splitWsAux rest []
    else splitWsAux rest (c :: acc)

/-- JavaScript `split(/\s+/)` restricted to its use in the source, where it
is only ever applied to a trimmed string: the maximal whitespace-free
chunks, in order. -/
def splitWs (s : List Char) : List (List Char) :=
  splitWsAux s []

/-- The greedy word-accumulation loop of `computeLabelLayout`: the
`words.forEach` with mutable `current`, plus the trailing
`if (current) lines.push(current)`.  `measure` models
`ctx.measureText(·).width` under the configured font. -/
def wrapWords (measure : List Char → ℚ) (maxWidth : ℚ) :
    List (List Char) → List Char → List (List Char)
  | [], current => if current.isEmpty then [] else [current]
  | word :: rest, current =>
    let tentative := if current.isEmpty then word else current ++ ' ' :: word
    if measure tentative ≤ maxWidth ∨ current.isEmpty then
      wrapWords measure maxWidth rest tentative
    else
      current :: wrapWords measure maxWidth rest word

/-- The derived `LabelLayout` record (the presentational `font` string is
omitted; its content is determined by the label weight and font size). -/
structure LabelLayout where
  lines : List (List Char)
  lineWidths : List ℚ
  contentWidth : ℚ
  height : ℚ
  maxWidth : ℚ
  lineHeight : ℚ
deriving DecidableEq, Repr

/-- `computeLabelLayout(label, width)` from the source.  `measure` is the
canvas text-measurement facility: `none` models the
`measureCanvas.getContext("2d")` call failing (the heuristic fallback
path), `some m` models `ctx.measureText(·).width`. -/
def computeLabelLayout (measure : Option (List Char → ℚ))
    (label : Option LabelOptions) (width : ℚ) : LabelLayout :=
  match label with
  | none =>
    { lines := [], lineWidths := [], contentWidth := 0, height := 0,
      maxWidth := width, lineHeight := 0 }
  | some label =>
    if (trimChars label.text).isEmpty then
      { lines := [], lineWidths := [], contentWidth := 0, height := 0,
        maxWidth := width, lineHeight := 0 }
    else
      let fontSize : ℚ := (jsRound (LABEL_FONT_SCALE label.size * width) : ℚ)
      let lineHeight := fontSize + max 8 (fontSize * 0.12)
      match measure with
      | none =>
        let fallbackWidth :=
          min (width - 32) ((label.text.length : ℚ) * fontSize * 0.45)
        { lines := [label.text], lineWidths := [fallbackWidth],
          contentWidth := fallbackWidth, height := lineHeight + 24,
          maxWidth := width, lineHeight := lineHeight }
      | some m =>
        let maxWidth := width - 32
        let words := splitWs (trimChars label.text)
        let lines := wrapWords m maxWidth words []
        let trimmedLines := lines.take 3
        let lineWidths := trimmedLines.map (fun line => min maxWidth (m line))
        let contentWidth := lineWidths.foldl max 0
        let height := (trimmedLines.length : ℚ) * lineHeight + 8
        { lines := trimmedLines, lineWidths := lineWidths,
          contentWidth := contentWidth, height := height,
          maxWidth := maxWidth, lineHeight := lineHeight }

/-- QR error-correction strengths. -/
inductive Ecc
  | L
  | M
  | Q
  | H
deriving DecidableEq, Repr

/-- The `modules` field of the external encoder's result (`qr.modules`);
`data` is the flat row-major module array. -/
structure QrModules where
  size : ℕ
  data : Option (List Bool)
deriving DecidableEq, Repr

/-- Result shape of the external `QRCode.create` call; `none` fields model
JS-falsy values that the source guards against. -/
structure QrCreateResult where
  modules : Option QrModules
deriving DecidableEq, Repr

/-- `buildMatrix(text, preferHighEcc)` from the source.  `create` is the
external `QRCode.create` collaborator; a thrown encoder error is an
`Except.error`, which the `await`ed call propagates. -/
def buildMatrix (create : List Char → Ecc → Except String QrCreateResult)
    (text : List Char) (preferHighEcc : Bool) : Except String ModuleMatrix := do
  let qr ← create text (if preferHighEcc then Ecc.H else Ecc.Q)
  match qr.modules with
  | none => Except.error "Failed to create QR matrix"
  | some m =>
    match m.data with
    | none => Except.error "Failed to create QR matrix"
    | some data =>
      Except.ok
        { size := m.size,
          rows := (List.range m.size).map (fun y =>
            (List.range m.size).map (fun x => data.getD (y * m.size + x) false)) }

/-- Shape kind of a generic per-module primitive, naming the arm of the
per-module `switch (options.style)` that emitted it (`dots` draws a
circle, `rounded` a rounded rect, `outline` a stroked rect, the default
arm a plain filled square). -/
inductive ShapeKind
  | circle
  | roundedRect
  | outlineRect
  | squareRect
deriving DecidableEq, Repr

/-- A merged pill shape: the arguments of the rounded-rect drawing call
issued by a run flush (`drawRoundedRect` on canvas, a `rect` element with
`rx = ry = radius` in SVG). -/
structure PillShape where
  x : ℚ
  y : ℚ
  width : ℚ
  height : ℚ
  radius : ℚ
deriving DecidableEq, Repr

/-- One element of the module layer of a render: either a generic
per-module shape (with its matrix coordinates and base, pre-snap pixel
coordinates) or a merged pill shape. -/
inductive Emitted
  | module (x y : ℕ) (kind : ShapeKind) (baseX baseY : ℚ)
  | pill (p : PillShape)
deriving DecidableEq, Repr

/-- The per-module `switch (options.style)` arms, projected to the kind of
primitive emitted (identical in the canvas and SVG loops). -/
def moduleShapeKind : QrStyle → ShapeKind
  | .dots => .circle
  | .rounded => .roundedRect
  | .outline => .outlineRect
  | _ => .squareRect

/-- The `logoClip && moduleWithinClip(baseX, baseY, moduleSize, moduleSize,
logoClip)` test that appears in all four module loops. -/
def clipHit (logoClip : Option LogoClip) (baseX baseY width height : ℚ) : Bool :=
  match logoClip with
  | some clip => moduleWithinClip baseX baseY width height clip
  | none => false

/-- The `flushRun(runEnd)` closure of `drawPillRow` (and of
`appendPillRowSvg`, which is identical): emits one rounded rect for the
run, or nothing when `widthUnits <= 0`. -/
def flushPill (moduleSize offset : ℚ) (rowIndex : ℕ) (styleScale : ℚ)
    (runStart runEnd : ℕ) : List PillShape :=
  let horizontalInset := (moduleSize - moduleSize * styleScale) / 2
  let verticalInset := (moduleSize - moduleSize * styleScale) / 2
  let height := moduleSize * styleScale
  if runEnd ≤ runStart then []
  else
    let width := ((runEnd : ℚ) - (runStart : ℚ)) * moduleSize - horizontalInset * 2
    [{ x := offset + (runStart : ℚ) * moduleSize + horizontalInset,
       y := offset + (rowIndex : ℚ) * moduleSize + verticalInset,
       width := max width (moduleSize * 0.35),
       height := height,
       radius := height / 2 }]

/-- Flush only when a run is open (`runStart !== -1`). -/
def flushIfOpen (moduleSize offset : ℚ) (rowIndex : ℕ) (styleScale : ℚ)
    (runStart : Option ℕ) (runEnd : ℕ) : List PillShape :=
  match runStart with
  | some s => flushPill moduleSize offset rowIndex styleScale s runEnd
  | none => []

/-- The `row.forEach` body of the canvas `drawPillRow`, with the mutable
`runStart` made explicit (`none` models `-1`). The source closes every run
inside the loop (the `isLast` check flushes a run that reaches the row
end), so the `[]` case emits nothing. -/
def drawPillRowAux (moduleSize offset : ℚ) (rowIndex matrixSize : ℕ)
    (styleScale : ℚ) (logoClip : Option LogoClip) :
    List Bool → ℕ → Option ℕ → List PillShape
  | [], _, _ => []
  | isDark :: rest, x, runStart =>
    if isDark && isFinderModule x rowIndex matrixSize then
      flushIfOpen moduleSize offset rowIndex styleScale runStart x ++
        drawPillRowAux moduleSize offset rowIndex matrixSize styleScale logoClip
          rest (x + 1) none
    else if isDark then
      let baseX := offset + (x : ℚ) * moduleSize
      let baseY := offset + (rowIndex : ℚ) * moduleSize
      if clipHit logoClip baseX baseY moduleSize moduleSize then
        flushIfOpen moduleSize offset rowIndex styleScale runStart x ++
          drawPillRowAux moduleSize offset rowIndex matrixSize styleScale logoClip
            rest (x + 1) none
      else
        let s := runStart.getD x
        match rest with
        | [] => flushPill moduleSize offset rowIndex styleScale s (x + 1)
        | _ :: _ =>
          drawPillRowAux moduleSize offset rowIndex matrixSize styleScale logoClip
            rest (x + 1) (some s)
    else
      flushIfOpen moduleSize offset rowIndex styleScale runStart x ++
        drawPillRowAux moduleSize offset rowIndex matrixSize styleScale logoClip
          rest (x + 1) none

/-- `drawPillRow(ctx, row, rowIndex, moduleSize, offset, matrixSize,
styleScale, logoClip)` from the canvas adapter. -/
def drawPillRow (row : List Bool) (rowIndex : ℕ) (moduleSize offset : ℚ)
    (matrixSize : ℕ) (styleScale : ℚ) (logoClip : Option LogoClip) :
    List PillShape :=
  drawPillRowAux moduleSize offset rowIndex matrixSize styleScale logoClip row 0 none

/-- The `row.forEach` body of `appendPillRowSvg` from the vector adapter;
the source is an exact duplicate of the canvas machine, pushing a `rect`
element with `rx = ry = height / 2` where the canvas calls
`drawRoundedRect`. -/
def appendPillRowSvgAux (moduleSize offset : ℚ) (rowIndex matrixSize : ℕ)
    (styleScale : ℚ) (logoClip : Option LogoClip) :
    List Bool → ℕ → Option ℕ → List PillShape
  | [], _, _ => []
  | isDark :: rest, x, runStart =>
    if isDark && isFinderModule x rowIndex matrixSize then
      flushIfOpen moduleSize offset rowIndex styleScale runStart x ++
        appendPillRowSvgAux moduleSize offset rowIndex matrixSize styleScale logoClip
          rest (x + 1) none
    else if isDark then
      let baseX := offset + (x : ℚ) * moduleSize
      let baseY := offset + (rowIndex : ℚ) * moduleSize
      if clipHit logoClip baseX baseY moduleSize moduleSize then
        flushIfOpen moduleSize offset rowIndex styleScale runStart x ++
          appendPillRowSvgAux moduleSize offset rowIndex matrixSize styleScale logoClip
            rest (x + 1) none
      else
        let s := runStart.getD x
        match rest with
        | [] => flushPill moduleSize offset rowIndex styleScale s (x + 1)
        | _ :: _ =>
          appendPillRowSvgAux moduleSize offset rowIndex matrixSize styleScale logoClip
            rest (x + 1) (some s)
    else
      flushIfOpen moduleSize offset rowIndex styleScale runStart x ++
        appendPillRowSvgAux moduleSize offset rowIndex matrixSize styleScale logoClip
          rest (x + 1) none

/-- `appendPillRowSvg(parts, row, rowIndex, moduleSize, offset, matrixSize,
styleScale, logoClip)` from the vector adapter. -/
def appendPillRowSvg (row : List Bool) (rowIndex : ℕ) (moduleSize offset : ℚ)
    (matrixSize : ℕ) (styleScale : ℚ) (logoClip : Option LogoClip) :
    List PillShape :=
  appendPillRowSvgAux moduleSize offset rowIndex matrixSize styleScale logoClip row 0 none

/-- One row of the generic per-module loop of the canvas `drawModules`:
skip light modules, then skip modules overlapping the logo clip, then skip
finder modules, then emit one shape per the style switch.  The emitted
record keeps the shape kind and the base (pre-`getAlignedRect`)
coordinates; the pixel-snapped fill geometry is presentational. -/
def drawModulesRow (style : QrStyle) (moduleSize offset : ℚ) (matrixSize : ℕ)
    (logoClip : Option LogoClip) (y : ℕ) : List Bool → ℕ → List Emitted
  | [], _ => []
  | isDark :: rest, x =>
    let tail := drawModulesRow style moduleSize offset matrixSize logoClip y rest (x + 1)
    if !isDark then tail
    else
      let baseX := offset + (x : ℚ) * moduleSize
      let baseY := offset + (y : ℚ) * moduleSize
      if clipHit logoClip baseX baseY moduleSize moduleSize then tail
      else if isFinderModule x y matrixSize then tail
      else Emitted.module x y (moduleShapeKind style) baseX baseY :: tail

/-- The `matrix.rows.forEach` of the canvas `drawModules`: pill rows are
dispatched to `drawPillRow`, other styles to the generic per-module loop. -/
def drawModulesRows (style : QrStyle) (moduleSize offset : ℚ) (matrixSize : ℕ)
    (styleScale : ℚ) (logoClip : Option LogoClip) :
    List (List Bool) → ℕ → List Emitted
  | [], _ => []
  | row :: rest, y =>
    (if style = QrStyle.pills then
       (drawPillRow row y moduleSize offset matrixSize styleScale logoClip).map
         Emitted.pill
     else drawModulesRow style moduleSize offset matrixSize logoClip y row 0) ++
      drawModulesRows style moduleSize offset matrixSize styleScale logoClip rest (y + 1)

/-- `drawModules(ctx, matrix, options, geometry, logoClip)` from the canvas
adapter, as its emitted module layer. -/
def drawModules (matrix : ModuleMatrix) (options : QrRenderOptions)
    (geometry : Geometry) (logoClip : Option LogoClip) : List Emitted :=
  drawModulesRows options.style geometry.moduleSize geometry.offset matrix.size
    (getStyleScale options.style) logoClip matrix.rows 0

/-- One row of the per-module loop inside `exportSvgMarkup`: skip light
modules, then skip finder modules, then skip modules overlapping the logo
clip, then emit one shape element per the style switch. -/
def exportSvgModuleRow (style : QrStyle) (moduleSize offset : ℚ) (matrixSize : ℕ)
    (logoClip : Option LogoClip) (y : ℕ) : List Bool → ℕ → List Emitted
  | [], _ => []
  | isDark :: rest, x =>
    let tail := exportSvgModuleRow style moduleSize offset matrixSize logoClip y rest (x + 1)
    if !isDark then tail
    else
      let baseX := offset + (x : ℚ) * moduleSize
      let baseY := offset + (y : ℚ) * moduleSize
      if isFinderModule x y matrixSize then tail
      else if clipHit logoClip baseX baseY moduleSize moduleSize then tail
      else Emitted.module x y (moduleShapeKind style) baseX baseY :: tail

/-- The `matrix.rows.forEach` of `exportSvgMarkup`'s module group. -/
def exportSvgModuleRows (style : QrStyle) (moduleSize offset : ℚ) (matrixSize : ℕ)
    (styleScale : ℚ) (logoClip : Option LogoClip) :
    List (List Bool) → ℕ → List Emitted
  | [], _ => []
  | row :: rest, y =>
    (if style = QrStyle.pills then
       (appendPillRowSvg row y moduleSize offset matrixSize styleScale logoClip).map
         Emitted.pill
     else exportSvgModuleRow style moduleSize offset matrixSize logoClip y row 0) ++
      exportSvgModuleRows style moduleSize offset matrixSize styleScale logoClip rest (y + 1)

/-- The module layer emitted by the vector adapter. -/
def exportSvgModuleShapes (matrix : ModuleMatrix) (options : QrRenderOptions)
    (geometry : Geometry) (logoClip : Option LogoClip) : List Emitted :=
  exportSvgModuleRows options.style geometry.moduleSize geometry.offset matrix.size
    (getStyleScale options.style) logoClip matrix.rows 0

/-- Which colour role a finder layer is filled with. -/
inductive FillRole
  | foreground
  | background
deriving DecidableEq, Repr

/-- One drawn finder pattern: three concentric squares.  `middle = none`
records that the 5×5 layer puts nothing on screen (cleared via `clearRect`
on canvas, no `rect` element in SVG) because the background is
transparent. -/
structure FinderShape where
  x : ℚ
  y : ℚ
  outerSize : ℚ
  middleSize : ℚ
  centerSize : ℚ
  radius : ℚ
  outerFill : FillRole
  middle : Option FillRole
  innerFill : FillRole
deriving DecidableEq, Repr

/-- `drawFinderPattern(ctx, x, y, moduleSize, options)` from the canvas
adapter: outer 7×7 rounded square in the foreground colour, middle 5×5
cleared (transparent mode) or filled with the background colour, inner 3×3
in the foreground colour. -/
def drawFinderPattern (x y moduleSize : ℚ) (options : QrRenderOptions) : FinderShape :=
  let outerSize := moduleSize * 7
  let middleSize := moduleSize * 5
  let centerSize := moduleSize * 3
  let radius := getFinderRadius options.style outerSize
  { x := x, y := y, outerSize := outerSize, middleSize := middleSize,
    centerSize := centerSize, radius := radius,
    outerFill := FillRole.foreground,
    middle := if options.transparentBackground then none else some FillRole.background,
    innerFill := FillRole.foreground }

/-- `drawFinderPatterns(ctx, matrixSize, geometry, options)` from the
canvas adapter: the three corner positions. -/
def drawFinderPatterns (matrixSize : ℕ) (geometry : Geometry)
    (options : QrRenderOptions) : List FinderShape :=
  let moduleSize := geometry.moduleSize
  let offset := geometry.offset
  let maxIndex : ℚ := (matrixSize : ℚ) - 7
  [drawFinderPattern offset offset moduleSize options,
   drawFinderPattern (offset + maxIndex * moduleSize) offset moduleSize options,
   drawFinderPattern offset (offset + maxIndex * moduleSize) moduleSize options]

/-- `appendFinderPatternSvg` from the vector adapter; under a transparent
background no middle `rect` is emitted, matching the canvas `clearRect`. -/
def appendFinderPatternSvg (x y moduleSize : ℚ) (options : QrRenderOptions) : FinderShape :=
  let outerSize := moduleSize * 7
  let middleSize := moduleSize * 5
  let centerSize := moduleSize * 3
  let radius := getFinderRadius options.style outerSize
  { x := x, y := y, outerSize := outerSize, middleSize := middleSize,
    centerSize := centerSize, radius := radius,
    outerFill := FillRole.foreground,
    middle := if options.transparentBackground then none else some FillRole.background,
    innerFill := FillRole.foreground }

/-- `appendFinderPatternsSvg` from the vector adapter. -/
def appendFinderPatternsSvg (matrixSize : ℕ) (geometry : Geometry)
    (options : QrRenderOptions) : List FinderShape :=
  let moduleSize := geometry.moduleSize
  let offset := geometry.offset
  let maxIndex : ℚ := (matrixSize : ℚ) - 7
  [appendFinderPatternSvg offset offset moduleSize options,
   appendFinderPatternSvg (offset + maxIndex * moduleSize) offset moduleSize options,
   appendFinderPatternSvg offset (offset + maxIndex * moduleSize) moduleSize options]

/-- `computeLabelX(size, padding, align)` from the source. -/
def computeLabelX (size padding : ℚ) (align : LabelAlign) : ℚ :=
  match align with
  | .left => padding
  | .right => size - padding
  | .center => size / 2

/-- Per-line text anchor positions of the canvas `drawLabel`: the caption
sits directly under the matrix (`qrBottom` minus a small offset), one line
every `lineHeight`. -/
def drawLabelPlacements (layout : LabelLayout) (options : QrRenderOptions)
    (geometry : Geometry) (matrixSize : ℕ) : List (ℚ × ℚ) :=
  match options.label with
  | none => []
  | some labelOptions =>
    if layout.lines.length = 0 then []
    else
      let paddingOffset : ℚ := 18
      let qrBottom := geometry.offset + geometry.moduleSize * (matrixSize : ℚ)
      let baseY := qrBottom - max 4 ((jsRound (layout.lineHeight * 0.25) : ℚ))
      let anchorX := computeLabelX options.size paddingOffset labelOptions.align
      layout.lines.enum.map (fun p => (anchorX, baseY + (p.1 : ℚ) * layout.lineHeight))

/-- Per-line text anchor positions of the label block of
`exportSvgMarkup` (same geometry as the canvas label pass). -/
def svgLabelPlacements (layout : LabelLayout) (options : QrRenderOptions)
    (geometry : Geometry) (matrixSize : ℕ) : List (ℚ × ℚ) :=
  match options.label with
  | none => []
  | some labelOptions =>
    if 0 < layout.lines.length then
      let padding : ℚ := 18
      let qrBottom := geometry.offset + geometry.moduleSize * (matrixSize : ℚ)
      let baseY := qrBottom - max 4 ((jsRound (layout.lineHeight * 0.25) : ℚ))
      layout.lines.enum.map
        (fun p => (computeLabelX options.size padding labelOptions.align,
                   baseY + (p.1 : ℚ) * layout.lineHeight))
    else []

/-- Skip bookkeeping for one row of the canvas module pass: the dark
modules the canvas loop declines to draw, recorded with the canvas check
order (logo clip first, then finder). -/
def canvasSkippedRow (moduleSize offset : ℚ) (matrixSize : ℕ)
    (logoClip : Option LogoClip) (y : ℕ) : List Bool → ℕ → List (ℕ × ℕ)
  | [], _ => []
  | isDark :: rest, x =>
    let tail := canvasSkippedRow moduleSize offset matrixSize logoClip y rest (x + 1)
    if !isDark then tail
    else
      let baseX := offset + (x : ℚ) * moduleSize
      let baseY := offset + (y : ℚ) * moduleSize
      if clipHit logoClip baseX baseY moduleSize moduleSize then (x, y) :: tail
      else if isFinderModule x y matrixSize then (x, y) :: tail
      else tail

/-- The set (as an ordered list) of dark modules skipped by the canvas
module pass on finder or logo-clip grounds. -/
def canvasSkippedModulesRows (moduleSize offset : ℚ) (matrixSize : ℕ)
    (logoClip : Option LogoClip) : List (List Bool) → ℕ → List (ℕ × ℕ)
  | [], _ => []
  | row :: rest, y =>
    canvasSkippedRow moduleSize offset matrixSize logoClip y row 0 ++
      canvasSkippedModulesRows moduleSize offset matrixSize logoClip rest (y + 1)

/-- Canvas-side skipped modules for a whole matrix. -/
def canvasSkippedModules (matrix : ModuleMatrix) (geometry : Geometry)
    (logoClip : Option LogoClip) : List (ℕ × ℕ) :=
  canvasSkippedModulesRows geometry.moduleSize geometry.offset matrix.size logoClip
    matrix.rows 0

/-- Skip bookkeeping for one row of the SVG module pass (finder checked
first, then logo clip, as in `exportSvgMarkup`). -/
def svgSkippedRow (moduleSize offset : ℚ) (matrixSize : ℕ)
    (logoClip : Option LogoClip) (y : ℕ) : List Bool → ℕ → List (ℕ × ℕ)
  | [], _ => []
  | isDark :: rest, x =>
    let tail := svgSkippedRow moduleSize offset matrixSize logoClip y rest (x + 1)
    if !isDark then tail
    else
      let baseX := offset + (x : ℚ) * moduleSize
      let baseY := offset + (y : ℚ) * moduleSize
      if isFinderModule x y matrixSize then (x, y) :: tail
      else if clipHit logoClip baseX baseY moduleSize moduleSize then (x, y) :: tail
      else tail

/-- SVG-side skipped modules across all rows. -/
def svgSkippedModulesRows (moduleSize offset : ℚ) (matrixSize : ℕ)
    (logoClip : Option LogoClip) : List (List Bool) → ℕ → List (ℕ × ℕ)
  | [], _ => []
  | row :: rest, y =>
    svgSkippedRow moduleSize offset matrixSize logoClip y row 0 ++
      svgSkippedModulesRows moduleSize offset matrixSize logoClip rest (y + 1)

/-- SVG-side skipped modules for a whole matrix. -/
def svgSkippedModules (matrix : ModuleMatrix) (geometry : Geometry)
    (logoClip : Option LogoClip) : List (ℕ × ℕ) :=
  svgSkippedModulesRows geometry.moduleSize geometry.offset matrix.size logoClip
    matrix.rows 0

/-- The spec's derived geometry/layout object for a render: the skipped
modules, the emitted module shapes, the finder patterns, and the label
line breaks and per-line anchors.  This is the comparison object for the
canvas/vector visual-parity contract. -/
structure DerivedLayout where
  skipped : List (ℕ × ℕ)
  shapes : List Emitted
  finders : List FinderShape
  labelLines : List (List Char)
  labelPlacement : List (ℚ × ℚ)
deriving DecidableEq, Repr

/-- The `Boolean(options.logo?.image || options.logo?.dataUrl)` flag passed
to `buildMatrix` by `prepareCommonPieces`. -/
def hasLogoHandle (options : QrRenderOptions) : Bool :=
  match options.logo with
  | some logo => logo.image || logo.dataUrl
  | none => false

/-- Derived layout of `renderQrToCanvas`: `prepareCommonPieces` (matrix and
label layout), `computeModuleSize`, `computeLogoClip`, then the finder,
module, and label passes of the canvas adapter.  The surface-sizing and
pixel-ratio transform scale the whole picture uniformly and the background
fill has no geometry, so neither contributes to the derived layout. -/
def canvasDerivedLayout (create : List Char → Ecc → Except String QrCreateResult)
    (measure : Option (List Char → ℚ)) (options : QrRenderOptions) :
    Except String DerivedLayout := do
  let matrix ← buildMatrix create options.text (hasLogoHandle options)
  let labelLayout := computeLabelLayout measure options.label options.size
  let geometry := computeModuleSize matrix.size options.size
  let logoClip := computeLogoClip matrix.size geometry.moduleSize options
  Except.ok
    { skipped := canvasSkippedModules matrix geometry logoClip,
      shapes := drawModules matrix options geometry logoClip,
      finders := drawFinderPatterns matrix.size geometry options,
      labelLines := labelLayout.lines,
      labelPlacement := drawLabelPlacements labelLayout options geometry matrix.size }

/-- Derived layout of `exportSvgMarkup`: the same common pieces, then the
finder, module, and label blocks of the vector document. -/
def svgDerivedLayout (create : List Char → Ecc → Except String QrCreateResult)
    (measure : Option (List Char → ℚ)) (options : QrRenderOptions) :
    Except String DerivedLayout := do
  let matrix ← buildMatrix create options.text (hasLogoHandle options)
  let labelLayout := computeLabelLayout measure options.label options.size
  let geometry := computeModuleSize matrix.size options.size
  let logoClip := computeLogoClip matrix.size geometry.moduleSize options
  Except.ok
    { skipped := svgSkippedModules matrix geometry logoClip,
      shapes := exportSvgModuleShapes matrix options geometry logoClip,
      finders := appendFinderPatternsSvg matrix.size geometry options,
      labelLines := labelLayout.lines,
      labelPlacement := svgLabelPlacements labelLayout options geometry matrix.size }

/-- The raster export formats. -/
inductive RasterFormat
  | png
  | jpeg
  | webp
deriving DecidableEq, Repr

/-- The format id string interpolated into the MIME type. -/
def rasterFormatId : RasterFormat → String
  | .png => "png"
  | .jpeg => "jpeg"
  | .webp => "webp"

/-- The observable plan of `exportRasterImage(format, options)`: the
options actually handed to `renderQrToCanvas` (after the JPEG override and
the `pixelRatio: 1` spread) and the `canvas.toBlob` MIME/quality
arguments. -/
structure RasterExportPlan where
  renderOptions : QrRenderOptions
  mime : String
  quality : ℚ
deriving DecidableEq, Repr

/-- `exportRasterImage(format, options)` from the source, as its export
plan. -/
def exportRasterImage (format : RasterFormat) (options : QrRenderOptions) :
    RasterExportPlan :=
  let safeOptions :=
    if format = RasterFormat.jpeg then
      { options with transparentBackground := false }
    else options
  { renderOptions := { safeOptions with pixelRatio := some 1 },
    mime := "image/" ++ rasterFormatId format,
    quality := if format = RasterFormat.jpeg then 0.92 else 0.95 }

/-- Whether `renderQrToCanvas` paints the opaque background rectangle
(`if (!options.transparentBackground) ctx.fillRect(...)`). -/
def canvasPaintsBackground (options : QrRenderOptions) : Bool :=
  !options.transparentBackground

/-- Fuel-driven decimal conversion; the fuel only bounds the number of
divisions by 10 and is always ample below. -/
def decimalCharsFuel : ℕ → ℕ → List Char
  | 0, _ => []
  | fuel + 1, n =>
    if n < 10 then [Nat.digitChar n]
    else decimalCharsFuel fuel (n / 10) ++ [Nat.digitChar (n % 10)]

/-- Decimal digits of a natural number, as JS `String(n)` produces them. -/
def decimalChars (n : ℕ) : List Char :=
  decimalCharsFuel (n + 1) n

/-- The fuel is irrelevant once it exceeds the argument. -/
theorem decimalCharsFuel_congr :
    ∀ (f1 : ℕ) (f2 n : ℕ), n < f1 → n < f2 →
      decimalCharsFuel f1 n = decimalCharsFuel f2 n := by
  intro f1
  induction f1 with
  | zero => intro f2 n h1 h2; omega
  | succ f ih =>
    intro f2 n h1 h2
    cases f2 with
    | zero => omega
    | succ g =>
      rw [decimalCharsFuel, decimalCharsFuel]
      by_cases h : n < 10
      · simp [h]
      · simp only [h, if_false]
        rw [ih g (n / 10) (by omega) (by omega)]

/-- The recursion equation of `decimalChars`. -/
theorem decimalChars_eq (n : ℕ) :
    decimalChars n =
      if n < 10 then [Nat.digitChar n]
      else decimalChars (n / 10) ++ [Nat.digitChar (n % 10)] := by
  rw [decimalChars, decimalCharsFuel]
  by_cases h : n < 10
  · simp [h]
  · simp only [h, if_false]
    rw [decimalCharsFuel_congr n (n / 10 + 1) (n / 10) (by omega) (by omega)]
    rfl

/-- JS `String(n).padStart(2, "0")`. -/
def padStart2 (s : List Char) : List Char :=
  if s.length < 2 then List.replicate (2 - s.length) '0' ++ s else s

/-- The local-time components read off `new Date()` by `buildFilename`
(`getMonth()` is 0-based, as in JS). -/
structure JsDate where
  fullYear : ℕ
  month0 : ℕ
  day : ℕ
  hours : ℕ
  minutes : ℕ
  seconds : ℕ
deriving DecidableEq, Repr

/-- The timestamp template literal of `buildFilename`: note the hyphen
between the date part and the time part. -/
def buildTimestamp (now : JsDate) : List Char :=
  decimalChars now.fullYear ++ padStart2 (decimalChars (now.month0 + 1)) ++
    padStart2 (decimalChars now.day) ++
    '-' :: (padStart2 (decimalChars now.hours) ++ padStart2 (decimalChars now.minutes) ++
      padStart2 (decimalChars now.seconds))

/-- `buildFilename(formatId, style, slug)` from `QrPreview`, with the
`new Date()` made an explicit parameter. -/
def buildFilename (formatId style slug : List Char) (now : JsDate) : List Char :=
  "qr-".data ++ slug ++ "-".data ++ style ++ "-".data ++ buildTimestamp now ++
    ".".data ++ formatId

/-- Characters the slug regex `[^a-z0-9]` keeps. -/
def isSlugChar (c : Char) : Bool :=
  (decide ('a' ≤ c) && decide (c ≤ 'z')) || (decide ('0' ≤ c) && decide (c ≤ '9'))

/-- State machine for `replace(/[^a-z0-9]+/g, "-")`: `pending` records
that a run of non-slug characters is open and still owes its single
hyphen. -/
def collapseNonSlugAux : List Char → Bool → List Char
  | [], pending => if pending then ['-'] else []
  | c :: rest, pending =>
    if isSlugChar c then
      (if pending then ['-'] else []) ++ c :: collapseNonSlugAux rest false
    else collapseNonSlugAux rest true

/-- `replace(/[^a-z0-9]+/g, "-")`: every maximal run of non-slug
characters becomes a single hyphen. -/
def collapseNonSlug (s : List Char) : List Char :=
  collapseNonSlugAux s false

/-- The `^-` alternative of `replace(/^-|-$/g, "")`: drop one leading
hyphen when present. -/
def stripLeadingHyphen (s : List Char) : List Char :=
  match s with
  | c :: rest => if c = '-' then rest else c :: rest
  | [] => []

/-- The `-$` alternative of `replace(/^-|-$/g, "")`. -/
def stripTrailingHyphen (s : List Char) : List Char :=
  if s.getLast? = some '-' then s.dropLast else s

/-- `createSlug(value)` from `QrPreview` (the `fallback` parameter always
takes its default `"qr"` in the source): lowercase, collapse non-slug
runs to hyphens, strip one leading and one trailing hyphen, truncate to 40
characters, fall back to `"qr"` when empty.  `toLowerCase` is modelled on
ASCII letters. -/
def createSlug (value : List Char) : List Char :=
  let slug :=
    (stripTrailingHyphen (stripLeadingHyphen
      (collapseNonSlug (value.map Char.toLower)))).take 40
  if slug.isEmpty then "qr".data else slug

/-! ### Concrete instances used by witnesses -/

/-- A concrete logo spec: 20 % size with safe zone, decoded image present. -/
def logoScenario : LogoOptions :=
  { image := true, dataUrl := false, sizePercent := 20, safeZone := true }

/-- A concrete render request carrying `logoScenario`. -/
def optionsScenario : QrRenderOptions :=
  { text := "https://example.com".data, size := 360, style := QrStyle.classic,
    foreground := "#111827", background := "#ffffff",
    transparentBackground := false, logo := some logoScenario, label := none,
    pixelRatio := none }

/-- A concrete render request asking for a transparent background. -/
def optionsTransparent : QrRenderOptions :=
  { text := "https://example.com".data, size := 512, style := QrStyle.rounded,
    foreground := "#111827", background := "#ffffff",
    transparentBackground := true, logo := none, label := none,
    pixelRatio := none }

/-! ### C2 — module geometry -/

/-- C2: for positive matrix and pixel sizes, `computeModuleSize` reserves a
fixed 4-module quiet zone on all sides: `moduleSize = pixelSize /
(matrixSize + 8)`, `offset = moduleSize * 4`, and (exactly, over ℚ)
`moduleSize * (matrixSize + 8) = pixelSize`.  The function is
deterministic in its two arguments, so preview and export calls differing
only in `pixelSize` use the identical rule. -/
theorem computeModuleSize_quiet_zone (matrixSize : ℕ) (pixelSize : ℚ)
    (hm : 0 < matrixSize) (hp : 0 < pixelSize) :
    (computeModuleSize matrixSize pixelSize).moduleSize =
        pixelSize / ((matrixSize : ℚ) + 8) ∧
    (computeModuleSize matrixSize pixelSize).offset =
        (computeModuleSize matrixSize pixelSize).moduleSize * 4 ∧
    (computeModuleSize matrixSize pixelSize).moduleSize * ((matrixSize : ℚ) + 8) =
        pixelSize := by
  have hden : ((matrixSize : ℚ) + 8) ≠ 0 := by positivity
  refine ⟨?_, ?_, ?_⟩
  · simp [computeModuleSize, QUIET_ZONE_MODULES]
    norm_num
  · simp [computeModuleSize, QUIET_ZONE_MODULES]
  · simp only [computeModuleSize, QUIET_ZONE_MODULES]
    push_cast
    field_simp
    norm_num

/-- Witness for C2 at a 25-module matrix rendered at 330 px:
module size 10 and offset 40. -/
theorem computeModuleSize_quiet_zone_witness :
    (0 < 25 ∧ (0 : ℚ) < 330) ∧
    (computeModuleSize 25 330).moduleSize = 330 / ((25 : ℚ) + 8) ∧
    (computeModuleSize 25 330).offset = (computeModuleSize 25 330).moduleSize * 4 ∧
    (computeModuleSize 25 330).moduleSize * ((25 : ℚ) + 8) = 330 :=
  ⟨⟨by norm_num, by norm_num⟩,
   computeModuleSize_quiet_zone 25 330 (by norm_num) (by norm_num)⟩

/-! ### C3 — logo clip -/

/-- C3: `computeLogoClip` returns `null` without a logo or with
`sizePercent ≤ 0`; otherwise it returns the centered square clip with
`contentSize = matrixSize·moduleSize·sizePercent/100`, safe-zone padding
`max(1.5·moduleSize, 8)` (so at least 8) or `0`, and
`size = contentSize + 2·padding`. -/
theorem computeLogoClip_spec (matrixSize : ℕ) (moduleSize : ℚ)
    (options : QrRenderOptions) :
    (options.logo = none → computeLogoClip matrixSize moduleSize options = none) ∧
    (∀ logo, options.logo = some logo → logo.sizePercent ≤ 0 →
      computeLogoClip matrixSize moduleSize options = none) ∧
    (∀ logo, options.logo = some logo → (logo.image = true ∨ logo.dataUrl = true) →
      0 < logo.sizePercent →
      (computeLogoClip matrixSize moduleSize options).isSome = true ∧
      (∀ clip, computeLogoClip matrixSize moduleSize options = some clip →
        clip.contentSize = (matrixSize : ℚ) * moduleSize * logo.sizePercent / 100 ∧
        clip.padding = (if logo.safeZone then max (moduleSize * 1.5) 8 else 0) ∧
        clip.size = clip.contentSize + 2 * clip.padding ∧
        clip.x = options.size / 2 - clip.size / 2 ∧
        clip.y = options.size / 2 - clip.size / 2 ∧
        (logo.safeZone = false → clip.padding = 0 ∧ clip.size = clip.contentSize) ∧
        (logo.safeZone = true → 8 ≤ clip.padding))) := by
  refine ⟨?_, ?_, ?_⟩
  · intro h
    simp [computeLogoClip, h]
  · intro logo hl hp
    have : ¬ (0 : ℚ) < logo.sizePercent := not_lt.mpr hp
    simp [computeLogoClip, hl, this]
  · intro logo hl him hp
    have h1 : (logo.image || logo.dataUrl) = true := by
      rcases him with h | h <;> simp [h]
    have hcond : ((logo.image || logo.dataUrl) && decide (0 < logo.sizePercent)) = true := by
      rw [h1, decide_eq_true hp]
      rfl
    constructor
    · simp [computeLogoClip, hl, hcond]
    · intro clip hc
      simp only [computeLogoClip, hl, hcond, if_true, Option.some.injEq] at hc
      obtain rfl := hc.symm
      refine ⟨rfl, rfl, by ring, rfl, rfl, ?_, ?_⟩
      · intro hsz
        constructor
        · simp [hsz]
        · simp [hsz]
      · intro hsz
        simp only [hsz, if_true]
        exact le_max_right _ _

/-- Witness for C3, the spec's scenario: `sizePercent = 20`, safe zone on,
25-module matrix, module size 10 — content 50, padding 15, size 80. -/
theorem computeLogoClip_spec_witness :
    ∃ clip, computeLogoClip 25 10 optionsScenario = some clip ∧
      clip.contentSize = 50 ∧ clip.padding = 15 ∧ clip.size = 80 := by
  obtain ⟨hsome, hprops⟩ :=
    (computeLogoClip_spec 25 10 optionsScenario).2.2 logoScenario rfl
      (Or.inl rfl) (by norm_num [logoScenario])
  obtain ⟨clip, hc⟩ := Option.isSome_iff_exists.mp hsome
  obtain ⟨h1, h2, h3, -, -, -, h4⟩ := hprops clip hc
  refine ⟨clip, hc, ?_, ?_, ?_⟩
  · rw [h1]; norm_num [logoScenario]
  · rw [h2]; norm_num [logoScenario]
  · rw [h3, h1, h2]; norm_num [logoScenario]

/-! ### C8 — JPEG export forces an opaque background -/

/-- C8: `exportRasterImage` with format `jpeg` silently forces
`transparentBackground = false` before rendering, renders through the
canvas adapter at pixel ratio 1, encodes at quality 0.92, and therefore
paints the opaque background even when the caller asked for
transparency. -/
theorem exportRasterImage_jpeg_forces_fill (options : QrRenderOptions) :
    (exportRasterImage RasterFormat.jpeg options).renderOptions.transparentBackground
        = false ∧
    (exportRasterImage RasterFormat.jpeg options).renderOptions.pixelRatio = some 1 ∧
    (exportRasterImage RasterFormat.jpeg options).quality = 0.92 ∧
    (exportRasterImage RasterFormat.jpeg options).mime = "image/jpeg" ∧
    (options.transparentBackground = true →
      canvasPaintsBackground
        (exportRasterImage RasterFormat.jpeg options).renderOptions = true) := by
  refine ⟨rfl, rfl, rfl, rfl, fun _ => rfl⟩

/-- Witness for C8 on a request that explicitly asks for transparency. -/
theorem exportRasterImage_jpeg_forces_fill_witness :
    optionsTransparent.transparentBackground = true ∧
    canvasPaintsBackground
      (exportRasterImage RasterFormat.jpeg optionsTransparent).renderOptions = true :=
  ⟨rfl, (exportRasterImage_jpeg_forces_fill optionsTransparent).2.2.2.2 rfl⟩

/-! ### C9 — error-correction selection and failure propagation -/

/-- An encoder probe that reports back (as an error) which
error-correction level it was asked for. -/
def eccProbe : List Char → Ecc → Except String QrCreateResult :=
  fun _ ecc =>
    Except.error (match ecc with
      | Ecc.L => "L"
      | Ecc.M => "M"
      | Ecc.Q => "Q"
      | Ecc.H => "H")

/-- An encoder that always fails, modelling a payload beyond symbol
capacity. -/
def failingCreate : List Char → Ecc → Except String QrCreateResult :=
  fun _ _ => Except.error "payload too long"

/-- C9: `buildMatrix` asks the external encoder for level `H` exactly when
a logo will be overlaid and `Q` otherwise (shown by a probe encoder that
echoes the requested level), propagates any encoder failure verbatim, and
turns a result with no module data into an error rather than a blank
matrix. -/
theorem buildMatrix_ecc_and_errors :
    (∀ text, buildMatrix eccProbe text true = Except.error "H") ∧
    (∀ text, buildMatrix eccProbe text false = Except.error "Q") ∧
    (∀ create text hasLogo msg,
      create text (if hasLogo then Ecc.H else Ecc.Q) = Except.error msg →
      buildMatrix create text hasLogo = Except.error msg) ∧
    (∀ create text hasLogo qr,
      create text (if hasLogo then Ecc.H else Ecc.Q) = Except.ok qr →
      qr.modules = none →
      buildMatrix create text hasLogo = Except.error "Failed to create QR matrix") := by
  refine ⟨fun text => rfl, fun text => rfl, ?_, ?_⟩
  · intro create text hasLogo msg h
    simp only [buildMatrix, h]
    rfl
  · intro create text hasLogo qr h hm
    simp only [buildMatrix, h, bind, Except.bind, hm]

/-- Witness for C9: a capacity failure surfaces as the same render
error. -/
theorem buildMatrix_ecc_and_errors_witness :
    failingCreate "x".data (if true then Ecc.H else Ecc.Q) =
        Except.error "payload too long" ∧
    buildMatrix failingCreate "x".data true = Except.error "payload too long" :=
  ⟨rfl,
   buildMatrix_ecc_and_errors.2.2.1 failingCreate "x".data true "payload too long" rfl⟩

/-! ### C4 — finder patterns are dedicated geometry -/

/-- No generic per-module shape emitted by one canvas row lies on a finder
module: the row loop returns before its style switch whenever
`isFinderModule` holds. -/
theorem drawModulesRow_no_finder (style : QrStyle) (moduleSize offset : ℚ)
    (matrixSize : ℕ) (logoClip : Option LogoClip) (y : ℕ) :
    ∀ (l : List Bool) (x : ℕ), ∀ e ∈ drawModulesRow style moduleSize offset matrixSize logoClip y l x,
      ∀ a b kind baseX baseY, e = Emitted.module a b kind baseX baseY →
        isFinderModule a b matrixSize = false := by
  intro l
  induction l with
  | nil =>
    intro x e he
    simp [drawModulesRow] at he
  | cons d rest ih =>
    intro x e he a b kind baseX baseY heq
    by_cases hd : d = true
    · by_cases hclip : clipHit logoClip (offset + (x : ℚ) * moduleSize)
        (offset + (y : ℚ) * moduleSize) moduleSize moduleSize = true
      · rw [drawModulesRow] at he
        simp only [hd, Bool.not_true, Bool.false_eq_true, if_false, hclip, if_true] at he
        exact ih (x + 1) e he a b kind baseX baseY heq
      · by_cases hf : isFinderModule x y matrixSize = true
        · rw [drawModulesRow] at he
          simp only [hd, Bool.not_true, Bool.false_eq_true, if_false,
            hclip, hf, if_true] at he
          exact ih (x + 1) e he a b kind baseX baseY heq
        · rw [drawModulesRow] at he
          simp only [hd, Bool.not_true, Bool.false_eq_true, if_false,
            hclip, hf, if_true] at he
          rcases List.mem_cons.mp he with rfl | hmem
          · cases heq
            exact Bool.eq_false_iff.mpr hf
          · exact ih (x + 1) e hmem a b kind baseX baseY heq
    · rw [drawModulesRow] at he
      simp only [hd] at he
      simp only [Bool.not_false, if_true] at he
      exact ih (x + 1) e he a b kind baseX baseY heq

/-- Lifting `drawModulesRow_no_finder` over all rows (pill rows emit no
generic per-module shapes at all). -/
theorem drawModulesRows_no_finder (style : QrStyle) (moduleSize offset : ℚ)
    (matrixSize : ℕ) (styleScale : ℚ) (logoClip : Option LogoClip) :
    ∀ (rows : List (List Bool)) (y : ℕ),
      ∀ e ∈ drawModulesRows style moduleSize offset matrixSize styleScale logoClip rows y,
      ∀ a b kind baseX baseY, e = Emitted.module a b kind baseX baseY →
        isFinderModule a b matrixSize = false := by
  intro rows
  induction rows with
  | nil =>
    intro y e he
    simp [drawModulesRows] at he
  | cons row rest ih =>
    intro y e he a b kind baseX baseY heq
    rw [drawModulesRows] at he
    rcases List.mem_append.mp he with hrow | hrest
    · by_cases hs : style = QrStyle.pills
      · simp only [hs, if_true] at hrow
        obtain ⟨p, -, hp⟩ := List.mem_map.mp hrow
        rw [heq] at hp
        cases hp
      · simp only [hs, if_false] at hrow
        exact drawModulesRow_no_finder style moduleSize offset matrixSize logoClip y
          row 0 e hrow a b kind baseX baseY heq
    · exact ih (y + 1) e hrest a b kind baseX baseY heq

/-- C4: for every style and matrix, the generic per-module path of the
canvas adapter never emits a shape at a finder-zone coordinate, and the
three finder patterns are drawn as dedicated geometry — exactly three, at
the top-left, top-right, and bottom-left corners, each three concentric
squares (outer 7×7 foreground, middle 5×5 background or cleared when the
background is transparent, inner 3×3 foreground) with the style-dependent
corner radius: `dots → outerSize/2`, `rounded → outerSize·0.2`, `pills →
outerSize·0.25`, others `0`. -/
theorem finder_isolation (matrix : ModuleMatrix) (options : QrRenderOptions)
    (geometry : Geometry) (logoClip : Option LogoClip) :
    (∀ e ∈ drawModules matrix options geometry logoClip,
      ∀ a b kind baseX baseY, e = Emitted.module a b kind baseX baseY →
        isFinderModule a b matrix.size = false) ∧
    (drawFinderPatterns matrix.size geometry options).length = 3 ∧
    ((drawFinderPatterns matrix.size geometry options).map (fun f => (f.x, f.y)) =
      [(geometry.offset, geometry.offset),
       (geometry.offset + ((matrix.size : ℚ) - 7) * geometry.moduleSize, geometry.offset),
       (geometry.offset, geometry.offset + ((matrix.size : ℚ) - 7) * geometry.moduleSize)]) ∧
    (∀ f ∈ drawFinderPatterns matrix.size geometry options,
      f.outerSize = geometry.moduleSize * 7 ∧
      f.middleSize = geometry.moduleSize * 5 ∧
      f.centerSize = geometry.moduleSize * 3 ∧
      f.outerFill = FillRole.foreground ∧
      f.innerFill = FillRole.foreground ∧
      f.middle = (if options.transparentBackground then none
                  else some FillRole.background) ∧
      f.radius = (match options.style with
        | QrStyle.dots => f.outerSize / 2
        | QrStyle.rounded => f.outerSize * 0.2
        | QrStyle.pills => f.outerSize * 0.25
        | _ => (0 : ℚ))) := by
  refine ⟨?_, rfl, rfl, ?_⟩
  · intro e he a b kind baseX baseY heq
    exact drawModulesRows_no_finder options.style geometry.moduleSize geometry.offset
      matrix.size (getStyleScale options.style) logoClip matrix.rows 0 e he
      a b kind baseX baseY heq
  · intro f hf
    have hcases :
        f = drawFinderPattern geometry.offset geometry.offset geometry.moduleSize options ∨
        f = drawFinderPattern (geometry.offset + ((matrix.size : ℚ) - 7) * geometry.moduleSize)
              geometry.offset geometry.moduleSize options ∨
        f = drawFinderPattern geometry.offset
              (geometry.offset + ((matrix.size : ℚ) - 7) * geometry.moduleSize)
              geometry.moduleSize options := by
      simpa [drawFinderPatterns] using hf
    rcases hcases with rfl | rfl | rfl <;>
      refine ⟨rfl, rfl, rfl, rfl, rfl, rfl, ?_⟩ <;>
      · cases h : options.style <;>
          simp [drawFinderPattern, getFinderRadius, h]

/-- A small matrix with a single dark non-finder module at (8, 8). -/
def matrixW : ModuleMatrix :=
  { size := 21,
    rows := List.replicate 8 (List.replicate 9 false) ++
      [List.replicate 8 false ++ [true]] }

/-- Witness for C4: with unit module size and offset 4, the lone dark
module at (8, 8) is emitted by the generic path, and that coordinate is
indeed outside all finder zones. -/
theorem finder_isolation_witness :
    drawModules matrixW optionsScenario ⟨1, 4⟩ none =
      [Emitted.module 8 8 ShapeKind.squareRect 12 12] ∧
    isFinderModule 8 8 matrixW.size = false := by
  have hlist : drawModules matrixW optionsScenario ⟨1, 4⟩ none =
      [Emitted.module 8 8 ShapeKind.squareRect 12 12] := by
    simp [drawModules, drawModulesRows, drawModulesRow, matrixW, optionsScenario,
      clipHit, isFinderModule, moduleShapeKind, getStyleScale, STYLE_SCALE,
      List.replicate]
    norm_num
  refine ⟨hlist, ?_⟩
  exact (finder_isolation matrixW optionsScenario ⟨1, 4⟩ none).1
    (Emitted.module 8 8 ShapeKind.squareRect 12 12)
    (by rw [hlist]; exact List.mem_singleton_self _)
    8 8 ShapeKind.squareRect 12 12 rfl

/-! ### C5 — pill run merging -/

/-- Eligibility of one module for pill-run merging: dark, not in a finder
zone, not overlapping the logo clip — the three tests of the pill-row
machine. -/
def pillEligible (moduleSize offset : ℚ) (rowIndex matrixSize : ℕ)
    (logoClip : Option LogoClip) (x : ℕ) (isDark : Bool) : Bool :=
  isDark && !isFinderModule x rowIndex matrixSize &&
    !clipHit logoClip (offset + (x : ℚ) * moduleSize)
      (offset + (rowIndex : ℚ) * moduleSize) moduleSize moduleSize

/-- Eligibility bits of a row suffix starting at index `x`. -/
def pillEligibleFrom (moduleSize offset : ℚ) (rowIndex matrixSize : ℕ)
    (logoClip : Option LogoClip) : List Bool → ℕ → List Bool
  | [], _ => []
  | d :: rest, x =>
    pillEligible moduleSize offset rowIndex matrixSize logoClip x d ::
      pillEligibleFrom moduleSize offset rowIndex matrixSize logoClip rest (x + 1)

/-- Maximal runs of `true` in a boolean sequence whose first element has
index `n`, with an optionally open run begun at `s`; each emitted pair is
a half-open interval `(start, stop)`. -/
def boolRunsFrom : List Bool → ℕ → Option ℕ → List (ℕ × ℕ)
  | [], _, none => []
  | [], n, some s => [(s, n)]
  | b :: rest, n, none =>
    if b then boolRunsFrom rest (n + 1) (some n) else boolRunsFrom rest (n + 1) none
  | b :: rest, n, some s =>
    if b then boolRunsFrom rest (n + 1) (some s)
    else (s, n) :: boolRunsFrom rest (n + 1) none

/-- The single rounded-rect shape generated for one maximal run: it spans
the run (with the style inset at both ends) and its corner radius is half
its height. -/
def pillShapeOfRun (moduleSize offset : ℚ) (rowIndex : ℕ) (styleScale : ℚ)
    (run : ℕ × ℕ) : PillShape :=
  let horizontalInset := (moduleSize - moduleSize * styleScale) / 2
  let verticalInset := (moduleSize - moduleSize * styleScale) / 2
  let height := moduleSize * styleScale
  let width := ((run.2 : ℚ) - (run.1 : ℚ)) * moduleSize - horizontalInset * 2
  { x := offset + (run.1 : ℚ) * moduleSize + horizontalInset,
    y := offset + (rowIndex : ℚ) * moduleSize + verticalInset,
    width := max width (moduleSize * 0.35),
    height := height,
    radius := height / 2 }

/-- A flush over a genuine run (`start < stop`) emits exactly the run
shape. -/
theorem flushPill_eq (moduleSize offset : ℚ) (rowIndex : ℕ) (styleScale : ℚ)
    (s e : ℕ) (h : s < e) :
    flushPill moduleSize offset rowIndex styleScale s e =
      [pillShapeOfRun moduleSize offset rowIndex styleScale (s, e)] := by
  rw [flushPill, if_neg (by omega)]
  rfl

/-- The pill-row machine emits exactly one shape per maximal eligible run:
it agrees with mapping `pillShapeOfRun` over the run decomposition of the
eligibility bits, for every reachable state (`runStart` open only below
the current index, and never open at the end of input). -/
theorem drawPillRowAux_eq_runs (moduleSize offset : ℚ) (rowIndex matrixSize : ℕ)
    (styleScale : ℚ) (logoClip : Option LogoClip) :
    ∀ (l : List Bool) (x : ℕ) (rs : Option ℕ),
      (rs = none ∨ l ≠ []) →
      (∀ s, rs = some s → s < x) →
      drawPillRowAux moduleSize offset rowIndex matrixSize styleScale logoClip l x rs =
        (boolRunsFrom
          (pillEligibleFrom moduleSize offset rowIndex matrixSize logoClip l x) x rs).map
          (pillShapeOfRun moduleSize offset rowIndex styleScale) := by
  intro l
  induction l with
  | nil =>
    intro x rs hre hlt
    rcases hre with rfl | h
    · rfl
    · exact absurd rfl h
  | cons d rest ih =>
    intro x rs hre hlt
    rw [drawPillRowAux, pillEligibleFrom]
    cases d with
    | false =>
      have hbit : pillEligible moduleSize offset rowIndex matrixSize logoClip x false
          = false := by
        simp [pillEligible]
      rw [hbit]
      simp only [Bool.false_and, Bool.false_eq_true, if_false]
      cases rs with
      | none =>
        rw [boolRunsFrom, if_neg (by simp)]
        simpa [flushIfOpen] using ih (x + 1) none (Or.inl rfl) (by simp)
      | some s =>
        have hsx : s < x := hlt s rfl
        rw [boolRunsFrom, if_neg (by simp)]
        simp only [List.map_cons, flushIfOpen]
        rw [flushPill_eq moduleSize offset rowIndex styleScale s x hsx,
          ih (x + 1) none (Or.inl rfl) (by simp)]
        rfl
    | true =>
      by_cases hf : isFinderModule x rowIndex matrixSize = true
      · have hbit : pillEligible moduleSize offset rowIndex matrixSize logoClip x true
            = false := by
          simp [pillEligible, hf]
        rw [hbit]
        simp only [Bool.true_and, hf, if_true]
        cases rs with
        | none =>
          rw [boolRunsFrom, if_neg (by simp)]
          simpa [flushIfOpen] using ih (x + 1) none (Or.inl rfl) (by simp)
        | some s =>
          have hsx : s < x := hlt s rfl
          rw [boolRunsFrom, if_neg (by simp)]
          simp only [List.map_cons, flushIfOpen]
          rw [flushPill_eq moduleSize offset rowIndex styleScale s x hsx,
            ih (x + 1) none (Or.inl rfl) (by simp)]
          rfl
      · by_cases hc : clipHit logoClip (offset + (x : ℚ) * moduleSize)
            (offset + (rowIndex : ℚ) * moduleSize) moduleSize moduleSize = true
        · have hbit : pillEligible moduleSize offset rowIndex matrixSize logoClip x true
              = false := by
            simp [pillEligible, hc]
          rw [hbit]
          simp only [Bool.true_and, hf, if_false, if_true, hc]
          cases rs with
          | none =>
            rw [boolRunsFrom, if_neg (by simp)]
            simpa [flushIfOpen] using ih (x + 1) none (Or.inl rfl) (by simp)
          | some s =>
            have hsx : s < x := hlt s rfl
            rw [boolRunsFrom, if_neg (by simp)]
            simp only [List.map_cons, flushIfOpen]
            rw [flushPill_eq moduleSize offset rowIndex styleScale s x hsx,
              ih (x + 1) none (Or.inl rfl) (by simp)]
            rfl
        · have hbit : pillEligible moduleSize offset rowIndex matrixSize logoClip x true
              = true := by
            simp [pillEligible, hf, hc]
          rw [hbit]
          simp only [Bool.true_and, hf, if_false, hc, if_true]
          have hgetlt : ∀ s, rs.getD x = s → s < x + 1 := by
            intro s hs
            cases rs with
            | none => simp at hs; omega
            | some t =>
              have := hlt t rfl
              simp at hs
              omega
          cases rest with
          | nil =>
            cases rs with
            | none =>
              rw [boolRunsFrom, if_pos rfl]
              rw [pillEligibleFrom, boolRunsFrom]
              simp only [Option.getD_none, List.map_cons, List.map_nil]
              exact flushPill_eq moduleSize offset rowIndex styleScale x (x + 1)
                (by omega)
            | some s =>
              have hsx : s < x := hlt s rfl
              rw [boolRunsFrom, if_pos rfl]
              rw [pillEligibleFrom, boolRunsFrom]
              simp only [Option.getD_some, List.map_cons, List.map_nil]
              exact flushPill_eq moduleSize offset rowIndex styleScale s (x + 1)
                (by omega)
          | cons e tail =>
            cases rs with
            | none =>
              rw [boolRunsFrom, if_pos rfl]
              simp only [Option.getD_none]
              exact ih (x + 1) (some x) (Or.inr (by simp)) (by intro s hs; cases hs; omega)
            | some s =>
              have hsx : s < x := hlt s rfl
              rw [boolRunsFrom, if_pos rfl]
              simp only [Option.getD_some]
              exact ih (x + 1) (some s) (Or.inr (by simp)) (by intro t ht; cases ht; omega)

/-- The SVG pill machine is the same machine as the canvas one. -/
theorem appendPillRowSvgAux_eq (moduleSize offset : ℚ) (rowIndex matrixSize : ℕ)
    (styleScale : ℚ) (logoClip : Option LogoClip) :
    ∀ (l : List Bool) (x : ℕ) (rs : Option ℕ),
      appendPillRowSvgAux moduleSize offset rowIndex matrixSize styleScale logoClip l x rs =
        drawPillRowAux moduleSize offset rowIndex matrixSize styleScale logoClip l x rs := by
  intro l
  induction l with
  | nil => intro x rs; rfl
  | cons d rest ih =>
    intro x rs
    rw [appendPillRowSvgAux, drawPillRowAux]
    cases rest with
    | nil => simp only [ih]
    | cons e tail => simp only [ih]

/-- C5 (amended): for every row, the pill style merges each maximal
horizontal run of consecutive dark, non-finder, non-clipped modules into
exactly one rounded-rectangle shape spanning the run, with corner radius
equal to half the shape height; runs break at finder modules, which
receive no per-module shapes from this path (the finder geometry is drawn
separately); the SVG pill path emits the identical shapes. -/
theorem drawPillRow_merges_runs (row : List Bool) (rowIndex : ℕ)
    (moduleSize offset : ℚ) (matrixSize : ℕ) (styleScale : ℚ)
    (logoClip : Option LogoClip) :
    drawPillRow row rowIndex moduleSize offset matrixSize styleScale logoClip =
      (boolRunsFrom
        (pillEligibleFrom moduleSize offset rowIndex matrixSize logoClip row 0) 0 none).map
        (pillShapeOfRun moduleSize offset rowIndex styleScale) ∧
    (∀ p ∈ drawPillRow row rowIndex moduleSize offset matrixSize styleScale logoClip,
      p.radius = p.height / 2 ∧ p.height = moduleSize * styleScale) ∧
    appendPillRowSvg row rowIndex moduleSize offset matrixSize styleScale logoClip =
      drawPillRow row rowIndex moduleSize offset matrixSize styleScale logoClip := by
  have hmain := drawPillRowAux_eq_runs moduleSize offset rowIndex matrixSize styleScale
    logoClip row 0 none (Or.inl rfl) (by simp)
  refine ⟨hmain, ?_, ?_⟩
  · intro p hp
    rw [drawPillRow, hmain] at hp
    obtain ⟨run, -, rfl⟩ := List.mem_map.mp hp
    exact ⟨rfl, rfl⟩
  · rw [appendPillRowSvg, drawPillRow]
    exact appendPillRowSvgAux_eq moduleSize offset rowIndex matrixSize styleScale
      logoClip row 0 none

/-- Counterexample to C5 as stated: on a fully dark row crossing two
finder zones (row 0 of a 21-module matrix), the pill path emits exactly
one merged shape — for the seven modules between the finder zones — and
nothing at the 14 finder modules.  There is no fall-back to per-module
squares at finder modules; finder zones simply break runs and are drawn
by the dedicated finder-pattern pass. -/
theorem drawPillRow_counterexample :
    drawPillRow (List.replicate 21 true) 0 1 0 21 (getStyleScale QrStyle.pills) none =
      [{ x := 7.18, y := 0.18, width := 6.64, height := 0.64, radius := 0.32 }] := by
  simp [drawPillRow, drawPillRowAux, flushIfOpen, flushPill, clipHit,
    isFinderModule, List.replicate, getStyleScale, STYLE_SCALE]
  norm_num

/-- Witness for the amended C5: a run of five contiguous dark, non-finder,
non-clipped modules (row 10 of a 25-module matrix) produces exactly one
rounded-rectangle shape — not five — and its radius is half its height. -/
theorem drawPillRow_merges_runs_witness :
    drawPillRow [true, true, true, true, true] 10 1 0 25
        (getStyleScale QrStyle.pills) none =
      [{ x := 0.18, y := 10.18, width := 4.64, height := 0.64, radius := 0.32 }] ∧
    ({ x := 0.18, y := 10.18, width := 4.64, height := 0.64, radius := 0.32 } :
        PillShape).radius =
      ({ x := 0.18, y := 10.18, width := 4.64, height := 0.64, radius := 0.32 } :
        PillShape).height / 2 := by
  have hlist : drawPillRow [true, true, true, true, true] 10 1 0 25
      (getStyleScale QrStyle.pills) none =
      [{ x := 0.18, y := 10.18, width := 4.64, height := 0.64, radius := 0.32 }] := by
    simp [drawPillRow, drawPillRowAux, flushIfOpen, flushPill, clipHit,
      isFinderModule, getStyleScale, STYLE_SCALE]
    norm_num
  refine ⟨hlist, ?_⟩
  have := ((drawPillRow_merges_runs [true, true, true, true, true] 10 1 0 25
      (getStyleScale QrStyle.pills) none).2.1
    { x := 0.18, y := 10.18, width := 4.64, height := 0.64, radius := 0.32 }
    (by rw [hlist]; exact List.mem_singleton_self _)).1
  simpa using this

/-! ### Label layout: helper lemmas for the greedy wrap -/

/-- Joining lines back with single spaces (the inverse view of the wrap:
a break replaces the separating space). -/
def unwords : List (List Char) → List Char
  | [] => []
  | [w] => w
  | w :: ws => w ++ ' ' :: unwords ws

/-- The first whitespace-free prefix of a line. -/
def firstWord (l : List Char) : List Char :=
  l.takeWhile (fun c => !c.isWhitespace)

/-- Unfolding `unwords` on a cons with a nonempty tail. -/
theorem unwords_cons (w : List Char) (ws : List (List Char)) (h : ws ≠ []) :
    unwords (w :: ws) = w ++ ' ' :: unwords ws := by
  cases ws with
  | nil => exact absurd rfl h
  | cons a t => rfl

/-- Starting the wrap on an empty current line just promotes the first
word. -/
theorem wrapWords_nil_cons (m : List Char → ℚ) (mw : ℚ) (w : List Char)
    (rest : List (List Char)) :
    wrapWords m mw (w :: rest) [] = wrapWords m mw rest w := by
  rw [wrapWords]
  simp

/-- Unfolding the wrap step on a nonempty current line. -/
theorem wrapWords_cons_of_ne (m : List Char → ℚ) (mw : ℚ) (w : List Char)
    (rest : List (List Char)) (cur : List Char) (hc : cur ≠ []) :
    wrapWords m mw (w :: rest) cur =
      if m (cur ++ ' ' :: w) ≤ mw then wrapWords m mw rest (cur ++ ' ' :: w)
      else cur :: wrapWords m mw rest w := by
  rw [wrapWords]
  have hcne : cur.isEmpty = false := by simp [hc]
  simp [hcne]

/-- The wrap of a nonempty current line is never empty: progress is always
forced. -/
theorem wrapWords_ne_nil (m : List Char → ℚ) (mw : ℚ) :
    ∀ (ws : List (List Char)) (cur : List Char), cur ≠ [] →
      wrapWords m mw ws cur ≠ [] := by
  intro ws
  induction ws with
  | nil =>
    intro cur hc
    have hcne : cur.isEmpty = false := by simp [hc]
    simp [wrapWords, hcne]
  | cons w rest ih =>
    intro cur hc
    rw [wrapWords_cons_of_ne m mw w rest cur hc]
    split
    · exact ih (cur ++ ' ' :: w) (by simp)
    · simp

/-- Splitting a joined pair back out of `unwords`. -/
theorem unwords_merge (a b : List Char) (l : List (List Char)) :
    unwords ((a ++ ' ' :: b) :: l) = unwords (a :: b :: l) := by
  cases l with
  | nil => rfl
  | cons r t =>
    rw [unwords_cons (a ++ ' ' :: b) (r :: t) (by simp),
      unwords_cons a (b :: r :: t) (by simp),
      unwords_cons b (r :: t) (by simp)]
    simp

/-- No word is lost and the order is kept: re-joining the wrapped lines
with spaces gives back the space-joined input words. -/
theorem unwords_wrapWords (m : List Char → ℚ) (mw : ℚ) :
    ∀ (ws : List (List Char)) (cur : List Char), (∀ w ∈ ws, w ≠ []) → cur ≠ [] →
      unwords (wrapWords m mw ws cur) = unwords (cur :: ws) := by
  intro ws
  induction ws with
  | nil =>
    intro cur hws hc
    have hcne : cur.isEmpty = false := by simp [hc]
    simp [wrapWords, hcne, unwords]
  | cons w rest ih =>
    intro cur hws hc
    have hwne : w ≠ [] := hws w (by simp)
    have hrest : ∀ v ∈ rest, v ≠ [] := fun v hv => hws v (by simp [hv])
    rw [wrapWords_cons_of_ne m mw w rest cur hc]
    split
    · rw [ih (cur ++ ' ' :: w) hrest (by simp)]
      exact unwords_merge cur w rest
    · rw [unwords_cons cur _ (wrapWords_ne_nil m mw rest w hwne),
        ih w hrest hwne,
        unwords_cons cur _ (by simp)]

/-- Every produced line is either a single (possibly over-long) word with
no internal space, or fits the measured budget: words only accumulate
while the tentative line stays within `maxWidth`. -/
theorem wrapWords_fits (m : List Char → ℚ) (mw : ℚ) :
    ∀ (ws : List (List Char)) (cur : List Char),
      (∀ w ∈ ws, ∀ c ∈ w, c.isWhitespace = false) →
      (cur = [] ∨ (∀ c ∈ cur, c.isWhitespace = false) ∨ m cur ≤ mw) →
      ∀ line ∈ wrapWords m mw ws cur,
        (∀ c ∈ line, c.isWhitespace = false) ∨ m line ≤ mw := by
  intro ws
  induction ws with
  | nil =>
    intro cur hws hinv line hline
    by_cases hc : cur = []
    · subst hc
      simp [wrapWords] at hline
    · have hcne : cur.isEmpty = false := by simp [hc]
      simp [wrapWords, hcne] at hline
      subst hline
      rcases hinv with rfl | h
      · exact absurd rfl hc
      · exact h
  | cons w rest ih =>
    intro cur hws hinv line hline
    have hw : ∀ c ∈ w, c.isWhitespace = false := hws w (by simp)
    have hrest : ∀ v ∈ rest, ∀ c ∈ v, c.isWhitespace = false :=
      fun v hv => hws v (by simp [hv])
    by_cases hc : cur = []
    · subst hc
      rw [wrapWords_nil_cons] at hline
      exact ih w hrest (Or.inr (Or.inl hw)) line hline
    · rw [wrapWords_cons_of_ne m mw w rest cur hc] at hline
      by_cases hfit : m (cur ++ ' ' :: w) ≤ mw
      · rw [if_pos hfit] at hline
        exact ih (cur ++ ' ' :: w) hrest (Or.inr (Or.inr hfit)) line hline
      · rw [if_neg hfit] at hline
        rcases List.mem_cons.mp hline with rfl | hmem
        · rcases hinv with rfl | h
          · exact absurd rfl hc
          · exact h
        · exact ih w hrest (Or.inr (Or.inl hw)) line hmem

/-- Appending more words to a nonempty line never changes its first
word. -/
theorem firstWord_extend (cur w : List Char) (hc : cur ≠ []) :
    firstWord (cur ++ ' ' :: w) = firstWord cur := by
  induction cur with
  | nil => exact absurd rfl hc
  | cons c cs ih =>
    by_cases hws : c.isWhitespace = true
    · simp [firstWord, List.takeWhile_cons, hws]
    · cases cs with
      | nil =>
        simp [firstWord, List.takeWhile_cons, hws]
      | cons c2 t =>
        have h2 := ih (by simp)
        simp only [firstWord, List.cons_append, List.takeWhile_cons] at h2 ⊢
        simp only [hws] at h2 ⊢
        simp at h2 ⊢
        exact h2

/-- A whitespace-free word is its own first word. -/
theorem firstWord_of_noWs :
    ∀ (w : List Char), (∀ c ∈ w, c.isWhitespace = false) → firstWord w = w := by
  intro w
  induction w with
  | nil => intro h; rfl
  | cons c t ih =>
    intro h
    have hc : c.isWhitespace = false := h c (by simp)
    have ht := ih (fun d hd => h d (by simp [hd]))
    rw [firstWord, List.takeWhile_cons]
    simp only [hc, Bool.not_false, if_true]
    rw [firstWord] at ht
    rw [ht]

/-- Greediness: whenever the wrap breaks a line, the broken-off line plus
the first word of the next line would exceed the budget. -/
theorem wrapWords_chain (m : List Char → ℚ) (mw : ℚ) :
    ∀ (ws : List (List Char)) (cur : List Char),
      (∀ w ∈ ws, w ≠ [] ∧ ∀ c ∈ w, c.isWhitespace = false) → cur ≠ [] →
      ∃ h t, wrapWords m mw ws cur = h :: t ∧ firstWord h = firstWord cur ∧
        List.Chain' (fun l1 l2 => ¬ m (l1 ++ ' ' :: firstWord l2) ≤ mw) (h :: t) := by
  intro ws
  induction ws with
  | nil =>
    intro cur hws hc
    have hcne : cur.isEmpty = false := by simp [hc]
    exact ⟨cur, [], by simp [wrapWords, hcne], rfl, by simp⟩
  | cons w rest ih =>
    intro cur hws hc
    have hw := hws w (by simp)
    have hrest : ∀ v ∈ rest, v ≠ [] ∧ ∀ c ∈ v, c.isWhitespace = false :=
      fun v hv => hws v (by simp [hv])
    rw [wrapWords_cons_of_ne m mw w rest cur hc]
    by_cases hfit : m (cur ++ ' ' :: w) ≤ mw
    · rw [if_pos hfit]
      obtain ⟨h, t, heq, hfw, hch⟩ := ih (cur ++ ' ' :: w) hrest (by simp)
      exact ⟨h, t, heq, by rw [hfw, firstWord_extend cur w hc], hch⟩
    · rw [if_neg hfit]
      obtain ⟨h, t, heq, hfw, hch⟩ := ih w hrest hw.1
      refine ⟨cur, h :: t, by rw [heq], rfl, ?_⟩
      rw [List.chain'_cons]
      refine ⟨?_, hch⟩
      rw [hfw, firstWord_of_noWs w hw.2]
      exact hfit

/-- Every chunk produced by the split loop is nonempty and whitespace-free
(given a whitespace-free accumulator). -/
theorem splitWsAux_mem :
    ∀ (s acc : List Char), (∀ c ∈ acc, c.isWhitespace = false) →
      ∀ w ∈ splitWsAux s acc, w ≠ [] ∧ ∀ c ∈ w, c.isWhitespace = false := by
  intro s
  induction s with
  | nil =>
    intro acc hacc w hw
    by_cases h : acc.isEmpty = true
    · simp [splitWsAux, h] at hw
    · have h' : acc.isEmpty = false := by simpa using h
      simp only [splitWsAux, h', Bool.false_eq_true, if_false,
        List.mem_singleton] at hw
      subst hw
      refine ⟨by simpa using h', ?_⟩
      intro c hc
      exact hacc c (by simpa using hc)
  | cons c rest ih =>
    intro acc hacc w hw
    rw [splitWsAux] at hw
    by_cases hws : c.isWhitespace = true
    · rw [if_pos hws] at hw
      by_cases hacc0 : acc.isEmpty = true
      · rw [if_pos hacc0] at hw
        exact ih [] (by simp) w hw
      · rw [if_neg hacc0] at hw
        rcases List.mem_cons.mp hw with rfl | hm
        · have h' : acc.isEmpty = false := by simpa using hacc0
          refine ⟨by simpa using h', ?_⟩
          intro d hd
          exact hacc d (by simpa using hd)
        · exact ih [] (by simp) w hm
    · rw [if_neg hws] at hw
      refine ih (c :: acc) ?_ w hw
      intro d hd
      rcases List.mem_cons.mp hd with rfl | hdm
      · simpa using hws
      · exact hacc d hdm

/-- Every chunk produced by `splitWs` is nonempty and whitespace-free. -/
theorem splitWs_mem (s : List Char) :
    ∀ w ∈ splitWs s, w ≠ [] ∧ ∀ c ∈ w, c.isWhitespace = false :=
  splitWsAux_mem s [] (by simp)

/-- The split loop with a pending word never returns nothing. -/
theorem splitWsAux_ne_nil :
    ∀ (s acc : List Char), acc ≠ [] → splitWsAux s acc ≠ [] := by
  intro s
  induction s with
  | nil =>
    intro acc hacc
    have h' : acc.isEmpty = false := by simpa using hacc
    simp [splitWsAux, h']
  | cons c rest ih =>
    intro acc hacc
    rw [splitWsAux]
    by_cases hws : c.isWhitespace = true
    · rw [if_pos hws]
      have h' : acc.isEmpty = false := by simpa using hacc
      rw [if_neg (by simp [h'])]
      simp
    · rw [if_neg hws]
      exact ih (c :: acc) (by simp)

/-- The head that survives `dropWhile` fails the predicate. -/
theorem dropWhile_head_false (p : Char → Bool) :
    ∀ (s : List Char) c l, s.dropWhile p = c :: l → p c = false := by
  intro s
  induction s with
  | nil =>
    intro c l h
    simp [List.dropWhile] at h
  | cons a t ih =>
    intro c l h
    rw [List.dropWhile_cons] at h
    split at h
    · exact ih c l h
    · cases h
      rename_i hpa
      simpa using hpa

/-- The first character of a trimmed string is never whitespace. -/
theorem trimChars_head (s : List Char) (c : Char) (rest : List Char)
    (h : trimChars s = c :: rest) : c.isWhitespace = false := by
  have hsuf : (s.dropWhile Char.isWhitespace).reverse.dropWhile Char.isWhitespace <:+
      (s.dropWhile Char.isWhitespace).reverse := List.dropWhile_suffix _
  have hpre : trimChars s <+: s.dropWhile Char.isWhitespace := by
    rw [trimChars]
    have h2 := List.reverse_prefix.mpr hsuf
    rwa [List.reverse_reverse] at h2
  obtain ⟨t, ht⟩ := hpre
  rw [h, List.cons_append] at ht
  exact dropWhile_head_false Char.isWhitespace s c (rest ++ t) ht.symm

/-- A nonempty trimmed caption always yields at least one word. -/
theorem splitWs_trim_ne_nil (s : List Char) (h : trimChars s ≠ []) :
    splitWs (trimChars s) ≠ [] := by
  cases hts : trimChars s with
  | nil => exact absurd hts h
  | cons c rest =>
    have hc := trimChars_head s c rest hts
    rw [splitWs, splitWsAux, if_neg (by simp [hc])]
    exact splitWsAux_ne_nil rest [c] (by simp)

/-- The font-scale table is positive. -/
theorem LABEL_FONT_SCALE_pos (sz : LabelSize) : 0 < LABEL_FONT_SCALE sz := by
  cases sz <;> norm_num [LABEL_FONT_SCALE]

/-- Rounding a nonnegative rational is nonnegative. -/
theorem jsRound_nonneg (q : ℚ) (h : 0 ≤ q) : 0 ≤ jsRound q := by
  rw [jsRound]
  exact Int.le_floor.mpr (by push_cast; linarith)

/-- The line-height formula is at least 8 for a nonnegative font size. -/
theorem lineHeight_ge_8 (fs : ℚ) (h : 0 ≤ fs) : 8 ≤ fs + max 8 (fs * 0.12) := by
  have := le_max_left (8 : ℚ) (fs * 0.12)
  linarith

/-! ### C7 — empty captions produce no label band -/

/-- C7: for every measurement facility, label input, and positive width,
the computed layout has no lines exactly when it has zero height; in
particular an absent label and an empty or whitespace-only caption both
give `lines = []` and `height = 0`. -/
theorem label_layout_empty_iff (measure : Option (List Char → ℚ))
    (label : Option LabelOptions) (width : ℚ) (hw : 0 < width) :
    ((computeLabelLayout measure label width).lines.length = 0 ↔
      (computeLabelLayout measure label width).height = 0) ∧
    ((computeLabelLayout measure none width).lines = [] ∧
      (computeLabelLayout measure none width).height = 0) ∧
    (∀ lab, label = some lab → trimChars lab.text = [] →
      (computeLabelLayout measure label width).lines = [] ∧
      (computeLabelLayout measure label width).height = 0) := by
  refine ⟨?_, ⟨by simp [computeLabelLayout], by simp [computeLabelLayout]⟩, ?_⟩
  · cases label with
    | none => simp [computeLabelLayout]
    | some lab =>
      by_cases htrim : (trimChars lab.text).isEmpty = true
      · simp [computeLabelLayout, htrim]
      · have htrim' : (trimChars lab.text).isEmpty = false := by
          simpa using htrim
        have htne : trimChars lab.text ≠ [] := by
          simpa using htrim'
        have hfs : (0 : ℚ) ≤ ((jsRound (LABEL_FONT_SCALE lab.size * width)) : ℚ) := by
          have := jsRound_nonneg (LABEL_FONT_SCALE lab.size * width)
            (le_of_lt (mul_pos (LABEL_FONT_SCALE_pos lab.size) hw))
          exact_mod_cast this
        have hlh : (8 : ℚ) ≤ ((jsRound (LABEL_FONT_SCALE lab.size * width)) : ℚ) +
            max 8 (((jsRound (LABEL_FONT_SCALE lab.size * width)) : ℚ) * 0.12) :=
          lineHeight_ge_8 _ hfs
        cases measure with
        | none =>
          have h1 : (computeLabelLayout none (some lab) width).lines.length = 1 := by
            simp [computeLabelLayout, htrim']
          have h2 : (computeLabelLayout none (some lab) width).height =
              ((jsRound (LABEL_FONT_SCALE lab.size * width)) : ℚ) +
                max 8 (((jsRound (LABEL_FONT_SCALE lab.size * width)) : ℚ) * 0.12) + 24 := by
            simp [computeLabelLayout, htrim']
          rw [h1, h2]
          constructor
          · intro h; exact absurd h (by norm_num)
          · intro h; exfalso; linarith
        | some mfn =>
          have hwrapne :
              wrapWords mfn (width - 32) (splitWs (trimChars lab.text)) [] ≠ [] := by
            cases hsp : splitWs (trimChars lab.text) with
            | nil => exact absurd hsp (splitWs_trim_ne_nil _ htne)
            | cons w ws =>
              rw [wrapWords_nil_cons]
              exact wrapWords_ne_nil mfn _ ws w
                ((splitWs_mem _ w (by rw [hsp]; simp)).1)
          have hlen : 0 <
              ((wrapWords mfn (width - 32) (splitWs (trimChars lab.text)) []).take 3).length := by
            have := List.length_pos.mpr hwrapne
            simp only [List.length_take]
            omega
          have h1 : (computeLabelLayout (some mfn) (some lab) width).lines.length =
              ((wrapWords mfn (width - 32) (splitWs (trimChars lab.text)) []).take 3).length := by
            simp [computeLabelLayout, htrim']
          have h2 : (computeLabelLayout (some mfn) (some lab) width).height =
              (((wrapWords mfn (width - 32) (splitWs (trimChars lab.text)) []).take 3).length : ℚ) *
                (((jsRound (LABEL_FONT_SCALE lab.size * width)) : ℚ) +
                  max 8 (((jsRound (LABEL_FONT_SCALE lab.size * width)) : ℚ) * 0.12)) + 8 := by
            simp [computeLabelLayout, htrim']
          rw [h1, h2]
          have hprod : (0 : ℚ) ≤
              (((wrapWords mfn (width - 32) (splitWs (trimChars lab.text)) []).take 3).length : ℚ) *
                (((jsRound (LABEL_FONT_SCALE lab.size * width)) : ℚ) +
                  max 8 (((jsRound (LABEL_FONT_SCALE lab.size * width)) : ℚ) * 0.12)) :=
            mul_nonneg (by positivity) (by linarith)
          constructor
          · intro h; omega
          · intro h; exfalso; linarith
  · intro lab heq htr
    subst heq
    simp [computeLabelLayout, htr]

/-- Concrete label options for witnesses: the spec's `"Scan me"` caption. -/
def labW : LabelOptions :=
  { text := "Scan me".data, size := LabelSize.sm, weight := LabelWeight.regular,
    align := LabelAlign.center, invert := false }

/-- A concrete measurement function: width = character count. -/
def measureW : List Char → ℚ := fun l => (l.length : ℚ)

/-- Witness for C7 at the `"Scan me"` caption and width 360. -/
theorem label_layout_empty_iff_witness :
    (0 : ℚ) < 360 ∧
    ((computeLabelLayout (some measureW) (some labW) 360).lines.length = 0 ↔
      (computeLabelLayout (some measureW) (some labW) 360).height = 0) :=
  ⟨by norm_num,
   (label_layout_empty_iff (some measureW) (some labW) 360 (by norm_num)).1⟩

/-! ### C6 — greedy word wrap -/

/-- C6: for a caption with nonempty trimmed text, the layout's lines are
the first 3 lines of the greedy wrap of the whitespace-split words (any
remaining words are discarded); the wrap loses no word before the cap and
keeps their order (re-joining with spaces is the identity); every line is
a single whitespace-free word or measures within `width - 32`; whenever a
line breaks, that line plus the first word of the next line would exceed
`width - 32` (greediness); the line height is
`fontSize + max(8, fontSize·0.12)` for the rounded resolution-proportional
font size; and without a measurement context the fallback emits the whole
caption as one line whose assumed width uses 0.45·fontSize per
character. -/
theorem label_wrap_greedy (m : List Char → ℚ) (lab : LabelOptions) (width : ℚ)
    (htne : trimChars lab.text ≠ []) :
    (computeLabelLayout (some m) (some lab) width).lines =
      (wrapWords m (width - 32) (splitWs (trimChars lab.text)) []).take 3 ∧
    (computeLabelLayout (some m) (some lab) width).lines.length ≤ 3 ∧
    unwords (wrapWords m (width - 32) (splitWs (trimChars lab.text)) []) =
      unwords (splitWs (trimChars lab.text)) ∧
    (∀ line ∈ wrapWords m (width - 32) (splitWs (trimChars lab.text)) [],
      (∀ c ∈ line, c.isWhitespace = false) ∨ m line ≤ width - 32) ∧
    List.Chain' (fun l1 l2 => ¬ m (l1 ++ ' ' :: firstWord l2) ≤ width - 32)
      (wrapWords m (width - 32) (splitWs (trimChars lab.text)) []) ∧
    (computeLabelLayout (some m) (some lab) width).lineHeight =
      ((jsRound (LABEL_FONT_SCALE lab.size * width)) : ℚ) +
        max 8 (((jsRound (LABEL_FONT_SCALE lab.size * width)) : ℚ) * 0.12) ∧
    (computeLabelLayout none (some lab) width).lines = [lab.text] ∧
    (computeLabelLayout none (some lab) width).lineWidths =
      [min (width - 32) ((lab.text.length : ℚ) *
        ((jsRound (LABEL_FONT_SCALE lab.size * width)) : ℚ) * 0.45)] := by
  have htrim' : (trimChars lab.text).isEmpty = false := by simpa using htne
  have hwordsne : splitWs (trimChars lab.text) ≠ [] := splitWs_trim_ne_nil _ htne
  have hwords : ∀ w ∈ splitWs (trimChars lab.text),
      w ≠ [] ∧ ∀ c ∈ w, c.isWhitespace = false := splitWs_mem _
  refine ⟨?_, ?_, ?_, ?_, ?_, ?_, ?_, ?_⟩
  · simp [computeLabelLayout, htrim']
  · have h1 : (computeLabelLayout (some m) (some lab) width).lines =
        (wrapWords m (width - 32) (splitWs (trimChars lab.text)) []).take 3 := by
      simp [computeLabelLayout, htrim']
    rw [h1]
    simp only [List.length_take]
    omega
  · cases hsp : splitWs (trimChars lab.text) with
    | nil => exact absurd hsp hwordsne
    | cons w ws =>
      rw [wrapWords_nil_cons]
      have hw : w ≠ [] := (hwords w (by rw [hsp]; simp)).1
      have hws' : ∀ v ∈ ws, v ≠ [] := fun v hv =>
        (hwords v (by rw [hsp]; simp [hv])).1
      rw [unwords_wrapWords m (width - 32) ws w hws' hw]
  · intro line hline
    exact wrapWords_fits m (width - 32) (splitWs (trimChars lab.text)) []
      (fun w hw => (hwords w hw).2) (Or.inl rfl) line hline
  · cases hsp : splitWs (trimChars lab.text) with
    | nil => exact absurd hsp hwordsne
    | cons w ws =>
      rw [wrapWords_nil_cons]
      have hall : ∀ v ∈ ws, v ≠ [] ∧ ∀ c ∈ v, c.isWhitespace = false :=
        fun v hv => hwords v (by rw [hsp]; simp [hv])
      have hw := hwords w (by rw [hsp]; simp)
      obtain ⟨h, t, heq, -, hch⟩ := wrapWords_chain m (width - 32) ws w hall hw.1
      rw [heq]
      exact hch
  · simp [computeLabelLayout, htrim']
  · simp [computeLabelLayout, htrim']
  · simp [computeLabelLayout, htrim']

/-- Witness for C6, the spec's scenario: caption `"Scan me"` at width 360
wraps to the single line `"Scan me"` (character-count measure: 7 ≤ 328). -/
theorem label_wrap_greedy_witness :
    trimChars labW.text ≠ [] ∧
    (computeLabelLayout (some measureW) (some labW) 360).lines = ["Scan me".data] := by
  have htne : trimChars labW.text ≠ [] := by decide
  refine ⟨htne, ?_⟩
  rw [(label_wrap_greedy measureW labW 360 htne).1]
  have hsplit : splitWs (trimChars labW.text) = ["Scan".data, "me".data] := by decide
  have hcond : measureW ("Scan".data ++ ' ' :: "me".data) ≤ 360 - 32 := by
    have h7 : ("Scan".data ++ ' ' :: "me".data).length = 7 := by decide
    simp only [measureW, h7]
    norm_num
  rw [hsplit, wrapWords_nil_cons,
    wrapWords_cons_of_ne measureW (360 - 32) "me".data [] "Scan".data (by decide),
    if_pos hcond, wrapWords]
  decide

/-! ### C1 — canvas / vector layout parity -/

/-- The SVG generic module row emits exactly what the canvas generic
module row emits: the two loops test the same predicates, only in a
different order (finder-then-clip versus clip-then-finder), and both
return without drawing in either case. -/
theorem exportSvgModuleRow_eq (style : QrStyle) (moduleSize offset : ℚ)
    (matrixSize : ℕ) (logoClip : Option LogoClip) (y : ℕ) :
    ∀ (l : List Bool) (x : ℕ),
      exportSvgModuleRow style moduleSize offset matrixSize logoClip y l x =
        drawModulesRow style moduleSize offset matrixSize logoClip y l x := by
  intro l
  induction l with
  | nil => intro x; rfl
  | cons d rest ih =>
    intro x
    rw [exportSvgModuleRow, drawModulesRow, ih]
    by_cases hd : d = true
    · by_cases hf : isFinderModule x y matrixSize = true
      · by_cases hc : clipHit logoClip (offset + (x : ℚ) * moduleSize)
            (offset + (y : ℚ) * moduleSize) moduleSize moduleSize = true <;>
          simp [hd, hf, hc]
      · by_cases hc : clipHit logoClip (offset + (x : ℚ) * moduleSize)
            (offset + (y : ℚ) * moduleSize) moduleSize moduleSize = true <;>
          simp [hd, hf, hc]
    · simp [hd]

/-- Row-by-row module parity: pill rows agree via the identical run
machines, other styles via `exportSvgModuleRow_eq`. -/
theorem exportSvgModuleRows_eq (style : QrStyle) (moduleSize offset : ℚ)
    (matrixSize : ℕ) (styleScale : ℚ) (logoClip : Option LogoClip) :
    ∀ (rows : List (List Bool)) (y : ℕ),
      exportSvgModuleRows style moduleSize offset matrixSize styleScale logoClip rows y =
        drawModulesRows style moduleSize offset matrixSize styleScale logoClip rows y := by
  intro rows
  induction rows with
  | nil => intro y; rfl
  | cons row rest ih =>
    intro y
    rw [exportSvgModuleRows, drawModulesRows, ih]
    by_cases hs : style = QrStyle.pills
    · simp only [hs, if_true]
      rw [appendPillRowSvg, drawPillRow, appendPillRowSvgAux_eq]
    · simp only [hs, if_false]
      rw [exportSvgModuleRow_eq]

/-- The module layers of the two adapters agree. -/
theorem exportSvgModuleShapes_eq (matrix : ModuleMatrix) (options : QrRenderOptions)
    (geometry : Geometry) (logoClip : Option LogoClip) :
    exportSvgModuleShapes matrix options geometry logoClip =
      drawModules matrix options geometry logoClip := by
  rw [exportSvgModuleShapes, drawModules, exportSvgModuleRows_eq]

/-- One row of skip bookkeeping agrees between the two adapters. -/
theorem svgSkippedRow_eq (moduleSize offset : ℚ) (matrixSize : ℕ)
    (logoClip : Option LogoClip) (y : ℕ) :
    ∀ (l : List Bool) (x : ℕ),
      svgSkippedRow moduleSize offset matrixSize logoClip y l x =
        canvasSkippedRow moduleSize offset matrixSize logoClip y l x := by
  intro l
  induction l with
  | nil => intro x; rfl
  | cons d rest ih =>
    intro x
    rw [svgSkippedRow, canvasSkippedRow, ih]
    by_cases hd : d = true
    · by_cases hf : isFinderModule x y matrixSize = true
      · by_cases hc : clipHit logoClip (offset + (x : ℚ) * moduleSize)
            (offset + (y : ℚ) * moduleSize) moduleSize moduleSize = true <;>
          simp [hd, hf, hc]
      · by_cases hc : clipHit logoClip (offset + (x : ℚ) * moduleSize)
            (offset + (y : ℚ) * moduleSize) moduleSize moduleSize = true <;>
          simp [hd, hf, hc]
    · simp [hd]

/-- The skipped-module sets of the two adapters agree. -/
theorem svgSkippedModules_eq (matrix : ModuleMatrix) (geometry : Geometry)
    (logoClip : Option LogoClip) :
    svgSkippedModules matrix geometry logoClip =
      canvasSkippedModules matrix geometry logoClip := by
  rw [svgSkippedModules, canvasSkippedModules]
  suffices h : ∀ (rows : List (List Bool)) (y : ℕ),
      svgSkippedModulesRows geometry.moduleSize geometry.offset matrix.size logoClip rows y =
        canvasSkippedModulesRows geometry.moduleSize geometry.offset matrix.size logoClip
          rows y by
    exact h matrix.rows 0
  intro rows
  induction rows with
  | nil => intro y; rfl
  | cons row rest ih =>
    intro y
    rw [svgSkippedModulesRows, canvasSkippedModulesRows, ih, svgSkippedRow_eq]

/-- The finder layers of the two adapters agree. -/
theorem appendFinderPatternsSvg_eq (matrixSize : ℕ) (geometry : Geometry)
    (options : QrRenderOptions) :
    appendFinderPatternsSvg matrixSize geometry options =
      drawFinderPatterns matrixSize geometry options := rfl

/-- The label placements of the two adapters agree. -/
theorem svgLabelPlacements_eq (layout : LabelLayout) (options : QrRenderOptions)
    (geometry : Geometry) (matrixSize : ℕ) :
    svgLabelPlacements layout options geometry matrixSize =
      drawLabelPlacements layout options geometry matrixSize := by
  rw [svgLabelPlacements, drawLabelPlacements]
  cases hL : options.label with
  | none => rfl
  | some labelOptions =>
    by_cases h : layout.lines.length = 0
    · simp [h]
    · simp [h, Nat.pos_of_ne_zero h]

/-- C1: rendering the same request through the canvas adapter at pixel
ratio 1 and through the vector adapter yields equal derived layouts: the
same skipped modules, the same module shapes (kind and base coordinates;
pill geometry in full), the same three finder patterns with their
geometry and corner radii, and the same label lines with the same
per-line placement.  When the encoder fails, both propagate the same
error. -/
theorem canvas_vector_parity (create : List Char → Ecc → Except String QrCreateResult)
    (measure : Option (List Char → ℚ)) (options : QrRenderOptions) :
    canvasDerivedLayout create measure { options with pixelRatio := some 1 } =
      svgDerivedLayout create measure { options with pixelRatio := some 1 } := by
  rw [canvasDerivedLayout, svgDerivedLayout]
  cases hb : buildMatrix create ({ options with pixelRatio := some 1 } : QrRenderOptions).text
      (hasLogoHandle { options with pixelRatio := some 1 }) with
  | error e =>
    simp only [hb, bind, Except.bind]
  | ok matrix =>
    simp only [hb, bind, Except.bind, Except.ok.injEq]
    rw [svgSkippedModules_eq, exportSvgModuleShapes_eq, appendFinderPatternsSvg_eq,
      svgLabelPlacements_eq]

/-! ### C10 — export filenames -/

/-- Digit characters of small naturals really are digits. -/
theorem digitChar_isDigit (m : ℕ) (h : m < 10) : (Nat.digitChar m).isDigit = true := by
  interval_cases m <;> decide

/-- One digit below 10. -/
theorem decimalChars_length_lt10 (n : ℕ) (h : n < 10) :
    (decimalChars n).length = 1 := by
  rw [decimalChars_eq, if_pos h]
  rfl

/-- One more digit per division by 10. -/
theorem decimalChars_length_step (n : ℕ) (h : 10 ≤ n) :
    (decimalChars n).length = (decimalChars (n / 10)).length + 1 := by
  rw [decimalChars_eq, if_neg (by omega)]
  simp

/-- Four-digit years render as four characters. -/
theorem decimalChars_length_year (y : ℕ) (h1 : 1000 ≤ y) (h2 : y < 10000) :
    (decimalChars y).length = 4 := by
  rw [decimalChars_length_step y (by omega),
    decimalChars_length_step (y / 10) (by omega),
    decimalChars_length_step (y / 10 / 10) (by omega),
    decimalChars_length_lt10 (y / 10 / 10 / 10) (by omega)]

/-- Every character of a decimal rendering is a digit. -/
theorem decimalChars_digits (n : ℕ) : ∀ c ∈ decimalChars n, c.isDigit = true := by
  induction n using Nat.strong_induction_on with
  | _ n ih =>
    rw [decimalChars_eq]
    by_cases h : n < 10
    · simp only [h, if_true, List.mem_singleton]
      intro c hc
      subst hc
      exact digitChar_isDigit n h
    · simp only [h, if_false]
      intro c hc
      rcases List.mem_append.mp hc with h1 | h2
      · exact ih (n / 10) (by omega) c h1
      · rw [List.mem_singleton] at h2
        subst h2
        exact digitChar_isDigit (n % 10) (by omega)

/-- Padding to two keeps two characters for small numbers. -/
theorem padStart2_length_two (n : ℕ) (h : n < 100) :
    (padStart2 (decimalChars n)).length = 2 := by
  by_cases h1 : n < 10
  · rw [padStart2, if_pos (by rw [decimalChars_length_lt10 n h1]; omega)]
    rw [List.length_append, List.length_replicate, decimalChars_length_lt10 n h1]
  · have h2 : (decimalChars n).length = 2 := by
      rw [decimalChars_length_step n (by omega),
        decimalChars_length_lt10 (n / 10) (by omega)]
    rw [padStart2, if_neg (by omega), h2]

/-- Padding preserves digit-ness (the pad character is `'0'`). -/
theorem padStart2_digits (s : List Char) (h : ∀ c ∈ s, c.isDigit = true) :
    ∀ c ∈ padStart2 s, c.isDigit = true := by
  rw [padStart2]
  split
  · intro c hc
    rcases List.mem_append.mp hc with h1 | h2
    · rw [List.eq_of_mem_replicate h1]
      decide
    · exact h c h2
  · exact h

/-- The timestamp splits as an 8-digit date part, a hyphen, and a 6-digit
time part. -/
theorem buildTimestamp_format (now : JsDate)
    (hy1 : 1000 ≤ now.fullYear) (hy2 : now.fullYear < 10000)
    (hm : now.month0 + 1 < 100) (hd : now.day < 100) (hh : now.hours < 100)
    (hmin : now.minutes < 100) (hs : now.seconds < 100) :
    ∃ datePart timePart, buildTimestamp now = datePart ++ '-' :: timePart ∧
      datePart.length = 8 ∧ timePart.length = 6 ∧
      (∀ c ∈ datePart, c.isDigit = true) ∧ (∀ c ∈ timePart, c.isDigit = true) := by
  refine ⟨decimalChars now.fullYear ++ padStart2 (decimalChars (now.month0 + 1)) ++
      padStart2 (decimalChars now.day),
    padStart2 (decimalChars now.hours) ++ padStart2 (decimalChars now.minutes) ++
      padStart2 (decimalChars now.seconds), ?_, ?_, ?_, ?_, ?_⟩
  · rw [buildTimestamp]
  · simp only [List.length_append]
    rw [decimalChars_length_year now.fullYear hy1 hy2,
      padStart2_length_two (now.month0 + 1) hm, padStart2_length_two now.day hd]
  · simp only [List.length_append]
    rw [padStart2_length_two now.hours hh, padStart2_length_two now.minutes hmin,
      padStart2_length_two now.seconds hs]
  · intro c hc
    rcases List.mem_append.mp hc with h1 | h2
    · rcases List.mem_append.mp h1 with h3 | h4
      · exact decimalChars_digits now.fullYear c h3
      · exact padStart2_digits _ (decimalChars_digits (now.month0 + 1)) c h4
    · exact padStart2_digits _ (decimalChars_digits now.day) c h2
  · intro c hc
    rcases List.mem_append.mp hc with h1 | h2
    · rcases List.mem_append.mp h1 with h3 | h4
      · exact padStart2_digits _ (decimalChars_digits now.hours) c h3
      · exact padStart2_digits _ (decimalChars_digits now.minutes) c h4
    · exact padStart2_digits _ (decimalChars_digits now.seconds) c h2

/-- Every character the collapse emits is a slug character or a hyphen. -/
theorem collapseNonSlugAux_chars :
    ∀ (s : List Char) (pending : Bool), ∀ c ∈ collapseNonSlugAux s pending,
      isSlugChar c = true ∨ c = '-' := by
  intro s
  induction s with
  | nil =>
    intro pending c hc
    cases pending <;> simp [collapseNonSlugAux] at hc
    exact Or.inr hc
  | cons a rest ih =>
    intro pending c hc
    rw [collapseNonSlugAux] at hc
    by_cases hslug : isSlugChar a = true
    · rw [if_pos hslug] at hc
      rcases List.mem_append.mp hc with h1 | h2
      · cases pending <;> simp at h1
        exact Or.inr h1
      · rcases List.mem_cons.mp h2 with rfl | h3
        · exact Or.inl hslug
        · exact ih false c h3
    · rw [if_neg hslug] at hc
      exact ih true c hc

/-- Members of `stripLeadingHyphen s` are members of `s`. -/
theorem stripLeadingHyphen_subset (s : List Char) :
    ∀ c ∈ stripLeadingHyphen s, c ∈ s := by
  intro c hc
  cases s with
  | nil => simpa [stripLeadingHyphen] using hc
  | cons a rest =>
    rw [stripLeadingHyphen] at hc
    split at hc
    · exact List.mem_cons_of_mem a hc
    · exact hc

/-- Members of `stripTrailingHyphen s` are members of `s`. -/
theorem stripTrailingHyphen_subset (s : List Char) :
    ∀ c ∈ stripTrailingHyphen s, c ∈ s := by
  intro c hc
  rw [stripTrailingHyphen] at hc
  split at hc
  · exact (List.dropLast_sublist s).subset hc
  · exact hc

/-- Counterexample to C10 as stated: the timestamp produced by
`buildFilename` is `YYYYMMDD-HHmmss` — it contains a hyphen between date
and time — not the claimed `YYYYMMDDHHmmss`.  At 2026-10-11 09:30:05 the
code produces `...-20261011-093005.png`, not `...-20261011093005.png`. -/
theorem buildFilename_counterexample :
    buildFilename "png".data "classic".data "example".data
        { fullYear := 2026, month0 := 9, day := 11, hours := 9, minutes := 30,
          seconds := 5 } =
      "qr-example-classic-20261011-093005.png".data ∧
    buildFilename "png".data "classic".data "example".data
        { fullYear := 2026, month0 := 9, day := 11, hours := 9, minutes := 30,
          seconds := 5 } ≠
      "qr-example-classic-20261011093005.png".data := by
  constructor <;> decide

/-- C10 (amended): the suggested filename is
`qr-<content-slug>-<style>-<timestamp>.<ext>` where the timestamp has
format `YYYYMMDD-HHmmss` (date part, a hyphen, time part) from local
time, and the slug is lowercase alphanumeric-with-hyphens truncated to 40
characters, nonempty, falling back to `"qr"` when empty. -/
theorem buildFilename_spec (ext style slugSource : List Char) (now : JsDate)
    (hy1 : 1000 ≤ now.fullYear) (hy2 : now.fullYear < 10000)
    (hm : now.month0 + 1 < 100) (hd : now.day < 100) (hh : now.hours < 100)
    (hmin : now.minutes < 100) (hs : now.seconds < 100) :
    buildFilename ext style (createSlug slugSource) now =
      "qr-".data ++ createSlug slugSource ++ "-".data ++ style ++ "-".data ++
        buildTimestamp now ++ ".".data ++ ext ∧
    (createSlug slugSource).length ≤ 40 ∧
    createSlug slugSource ≠ [] ∧
    (∀ c ∈ createSlug slugSource, isSlugChar c = true ∨ c = '-') ∧
    ((stripTrailingHyphen (stripLeadingHyphen
        (collapseNonSlug (slugSource.map Char.toLower)))).take 40 = [] →
      createSlug slugSource = "qr".data) ∧
    (∃ datePart timePart, buildTimestamp now = datePart ++ '-' :: timePart ∧
      datePart.length = 8 ∧ timePart.length = 6 ∧
      (∀ c ∈ datePart, c.isDigit = true) ∧ (∀ c ∈ timePart, c.isDigit = true)) := by
  refine ⟨rfl, ?_, ?_, ?_, ?_,
    buildTimestamp_format now hy1 hy2 hm hd hh hmin hs⟩
  · rw [createSlug]
    split
    · decide
    · exact le_trans (List.length_take_le 40 _) (by omega)
  · rw [createSlug]
    split
    · decide
    · rename_i h
      simpa using h
  · intro c hc
    rw [createSlug] at hc
    split at hc
    · rcases List.mem_cons.mp hc with rfl | h2
      · exact Or.inl (by decide)
      · rw [List.mem_singleton] at h2
        subst h2
        exact Or.inl (by decide)
    · have h1 := List.take_subset 40 _ hc
      have h2 := stripTrailingHyphen_subset _ c h1
      have h3 := stripLeadingHyphen_subset _ c h2
      exact collapseNonSlugAux_chars _ false c h3
  · intro hempty
    rw [createSlug, collapseNonSlug]
    rw [collapseNonSlug] at hempty
    rw [if_pos (by simp [hempty])]

/-- Witness for the amended C10 at a concrete date and content string:
`createSlug "My Example URL!"` is `my-example-url` and the full filename
carries the `YYYYMMDD-HHmmss` timestamp. -/
theorem buildFilename_spec_witness :
    (1000 ≤ (2026 : ℕ) ∧ (2026 : ℕ) < 10000) ∧
    buildFilename "png".data "classic".data
        (createSlug "My Example URL!".data)
        { fullYear := 2026, month0 := 9, day := 11, hours := 9, minutes := 30,
          seconds := 5 } =
      "qr-my-example-url-classic-20261011-093005.png".data := by
  refine ⟨⟨by norm_num, by norm_num⟩, ?_⟩
  rw [(buildFilename_spec "png".data "classic".data "My Example URL!".data
    { fullYear := 2026, month0 := 9, day := 11, hours := 9, minutes := 30,
      seconds := 5 } (by norm_num) (by norm_num) (by norm_num) (by norm_num)
    (by norm_num) (by norm_num) (by norm_num)).1]
  decide

end QrSpec
